import Mathlib

/-!
# The interactive checker of `sample-problem-interactive`

A shallow embedding of `example/sample-problem-interactive/src/checker.cpp`:
the guessing-game interactor built on testlib.  The contestant channel `ouf`
and the instance file `inf` are token streams; the checker's observable
behaviour is the sequence of channel events (tokens it reads, integers it
writes to the contestant) together with the verdict it quits with.

`N_MIN` and `N_MAX` come from `params.h`, which is not part of the sources at
hand; they are parameters of every definition that uses them.
-/

namespace InteractiveChecker

/-! ## testlib: tokens, verdicts, readers -/

/-- One whitespace-delimited token of a testlib input stream.  `int v` is a
token that is the decimal numeral of the integer `v` (of any magnitude);
`word s` is any other token, with text `s`.  The numeral of an integer is
never the text `?` or `!`. -/
inductive Token where
  | word (s : String)
  | int (v : Int)
deriving DecidableEq, Repr

/-- The testlib outcomes used by the checker: `_ok` (accepted), `_wa` (wrong
answer), `_pe` (presentation error, raised by the readers of `ouf`), `_fail`
(judge failure). -/
inductive TResult where
  | _ok
  | _wa
  | _pe
  | _fail
deriving DecidableEq, Repr

/-- The verdict kinds of the specification. -/
inductive VerdictKind where
  | Accepted
  | Rejected
  | InternalFault
deriving DecidableEq, Repr

/-- The classification of a testlib outcome: `_ok` is the success status,
`_wa` and `_pe` are the two outcomes blamed on the contestant, `_fail` is the
judge-side failure. -/
def TResult.kind : TResult → VerdictKind
  | ._ok => .Accepted
  | ._wa => .Rejected
  | ._pe => .Rejected
  | ._fail => .InternalFault

/-- What a `quit` call reports: the outcome and the diagnostic text. -/
structure Verdict where
  result : TResult
  message : String
deriving DecidableEq, Repr

/-- An observable action of the checker on the contestant channel. -/
inductive Event where
  | read (t : Token)
  | write (r : Int)
deriving DecidableEq, Repr

/-- A finished run: the channel events in program order and the verdict. -/
structure Outcome where
  trace : List Event
  verdict : Verdict
deriving DecidableEq, Repr

/-- The integers written among the events, in order. -/
def writes : List Event → List Int
  | [] => []
  | .write r :: es => r :: writes es
  | .read _ :: es => writes es

/-- The integers written to the contestant (`std::cout`), in order. -/
def Outcome.written (o : Outcome) : List Int := writes o.trace

/-- Events `ev` happen first, then the run `o`. -/
def Outcome.after (ev : List Event) (o : Outcome) : Outcome :=
  ⟨ev ++ o.trace, o.verdict⟩

def INT_MIN : Int := -2147483648

def INT_MAX : Int := 2147483647

/-- The value fits the C++ type `int`. -/
def isInt32 (v : Int) : Prop := INT_MIN ≤ v ∧ v ≤ INT_MAX

instance (v : Int) : Decidable (isInt32 v) := by
  unfold isInt32; infer_instance

/-- The conversion done by `ouf.readInt(minv, maxv)` on the token it has read:
`_pe` when the token is not an integer or does not fit `int`, `_wa` when the
integer violates the range, the integer otherwise.  The diagnostics of
testlib's own readers are given by their first words only. -/
def toIntInRange (minv maxv : Int) : Token → Except Verdict Int
  | .word _ => .error ⟨._pe, "Expected integer"⟩
  | .int v =>
    if ¬ isInt32 v then .error ⟨._pe, "Expected int32"⟩
    else if v < minv ∨ maxv < v then .error ⟨._wa, "Integer violates the range"⟩
    else .ok v

/-- The verdict of a reader of `ouf` that finds the stream at its end. -/
def unexpectedEof : Verdict := ⟨._pe, "Unexpected end of file"⟩

/-- The verdict of `ensure(cond)` when `cond` is false. -/
def ensureFailed : Verdict := ⟨._fail, "Condition failed"⟩

/-! ## checker.cpp -/

/-- The query budget: `constexpr int B = 7`. -/
def B : Int := 7

/-- The message loop of `main`, `for (int num = 1;; ++num)`, started at the
counter value `num` on the unread part of the contestant stream.  Every
iteration reads at least one token, so the recursion is on the stream. -/
def loop (N_MIN N_MAX X : Int) (num : Int) : List Token → Outcome
  | [] => ⟨[], unexpectedEof⟩
  | t :: rest =>
    if t = .word "?" ∨ t = .word "!" then
      if t = .word "?" then
        if num > B then
          ⟨[.read t, .write (-1)], ⟨._wa, "Too many questions"⟩⟩
        else
          match rest with
          | [] => ⟨[.read t], unexpectedEof⟩
          | tv :: rest' =>
            match toIntInRange N_MIN N_MAX tv with
            | .error e => ⟨[.read t, .read tv], e⟩
            | .ok v =>
              if X < v then
                (loop N_MIN N_MAX X (num + 1) rest').after [.read t, .read tv, .write 1]
              else
                (loop N_MIN N_MAX X (num + 1) rest').after [.read t, .read tv, .write 0]
      else
        match rest with
        | [] => ⟨[.read t], unexpectedEof⟩
        | tv :: _ =>
          match toIntInRange N_MIN N_MAX tv with
          | .error e => ⟨[.read t, .read tv], e⟩
          | .ok v =>
            if X = v then
              ⟨[.read t, .read tv, .write 1],
                ⟨._ok, "Guessed the number in " ++ toString (num - 1) ++ " questions"⟩⟩
            else
              ⟨[.read t, .read tv, .write (-1)], ⟨._wa, "Guessed the wrong number"⟩⟩
    else
      ⟨[.read t], ensureFailed⟩

/-- The conversion done by `inf.readInt()` on the instance file: the first
token must be an integer that fits `int`; any failure of a reader of `inf`
is a judge failure. -/
def readTarget : List Token → Except Verdict Int
  | [] => .error ⟨._fail, "Unexpected end of file"⟩
  | .word _ :: _ => .error ⟨._fail, "Expected integer"⟩
  | .int v :: _ =>
    if isInt32 v then .ok v else .error ⟨._fail, "Expected int32"⟩

/-- The program: `main` reads the target `X` from `inf` and runs the message
loop from `num = 1` on the contestant stream `ouf`. -/
def main (N_MIN N_MAX : Int) (inf ouf : List Token) : Outcome :=
  match readTarget inf with
  | .error e => ⟨[], e⟩
  | .ok X => loop N_MIN N_MAX X 1 ouf

/-! ## The wire format of the contestant -/

/-- A protocol message of the contestant: `? v` or `! v`. -/
inductive Message where
  | Query (value : Int)
  | Answer (value : Int)
deriving DecidableEq, Repr

/-- The two tokens a message is sent as. -/
def Message.tokens : Message → List Token
  | .Query v => [.word "?", .int v]
  | .Answer v => [.word "!", .int v]

/-- The token stream of a sequence of messages. -/
def encode : List Message → List Token
  | [] => []
  | m :: ms => m.tokens ++ encode ms

/-- The value lies in the domain `[N_MIN, N_MAX]`. -/
def inDomain (N_MIN N_MAX v : Int) : Prop := N_MIN ≤ v ∧ v ≤ N_MAX

instance (N_MIN N_MAX v : Int) : Decidable (inDomain N_MIN N_MAX v) := by
  unfold inDomain; infer_instance

/-- The integer the checker writes for a query `v` within the budget. -/
def comparison (X v : Int) : Int := if X < v then 1 else 0

/-- The channel events of a run of queries answered within the budget. -/
def queryEvents (X : Int) : List Int → List Event
  | [] => []
  | v :: vs => [.read (.word "?"), .read (.int v), .write (comparison X v)] ++ queryEvents X vs

/-! ## Vocabulary for the session properties -/

/-- The integer of the message. -/
def Message.value : Message → Int
  | .Query v => v
  | .Answer v => v

/-- The tokens of an in-domain message that the checker reads when it meets
the message at counter value `num`: both of them, except for a query over the
budget, of which only the discriminator is read. -/
def Message.reads (num : Int) : Message → List Token
  | .Query v => if B < num then [.word "?"] else [.word "?", .int v]
  | .Answer v => [.word "!", .int v]

/-- The integer the checker writes for an in-domain message that it meets at
counter value `num`, with target `X`. -/
def Message.response (X num : Int) : Message → Int
  | .Query v => if B < num then -1 else if X < v then 1 else 0
  | .Answer v => if X = v then 1 else -1

/-- The in-domain message ends the session when met at counter value `num`:
an answer, or a query over the budget. -/
def Message.terminal (num : Int) : Message → Bool
  | .Query _ => decide (B < num)
  | .Answer _ => true

/-- The messages of an in-domain stream that the checker gets to, the first
one being met at counter value `num`: all up to and including the first
terminal one. -/
def consumedMessages (num : Int) : List Message → List Message
  | [] => []
  | m :: ms => if m.terminal num then [m] else m :: consumedMessages (num + 1) ms

/-- One exchange per message, in order: the reads of the message, then the
single write of its response. -/
def exchanges (X num : Int) : List Message → List Event
  | [] => []
  | m :: ms =>
    (m.reads num).map .read ++ [.write (m.response X num)] ++ exchanges X (num + 1) ms

/-- The responses to the messages, in order, the first being met at counter
value `num`. -/
def responses (X num : Int) : List Message → List Int
  | [] => []
  | m :: ms => m.response X num :: responses X (num + 1) ms

/-! ## A contestant playing against the checker -/

/-- A contestant as a strategy: from the responses received so far to the
tokens it sends next (nothing once it has stopped). -/
abbrev Strategy := List Int → List Token

/-- The contestant stream after `n` turns of the strategy against the checker:
on each turn the contestant has read exactly what the checker has written in
reply to the tokens sent before, and sends what its strategy says. -/
def play (N_MIN N_MAX : Int) (inf : List Token) (strategy : Strategy) : Nat → List Token
  | 0 => []
  | n + 1 =>
    play N_MIN N_MAX inf strategy n
      ++ strategy (main N_MIN N_MAX inf (play N_MIN N_MAX inf strategy n)).written

/-- What a binary-search contestant knows: the target lies in `[lo, hi]`;
`done` once the answer has been acknowledged. -/
structure Search where
  lo : Int
  hi : Int
  done : Bool
deriving DecidableEq, Repr

/-- The value queried on `[lo, hi]`: the upper middle, so that both outcomes
leave a non-empty interval. -/
def midpoint (lo hi : Int) : Int := lo + (hi - lo + 1) / 2

/-- The next message of the binary search: a query of the midpoint while more
than one candidate is left, the answer when one is left. -/
def Search.send (s : Search) : List Token :=
  if s.done then []
  else if s.lo < s.hi then [.word "?", .int (midpoint s.lo s.hi)]
  else [.word "!", .int s.lo]

/-- The binary search reads a response in the checker's convention: `1` says
the target is below the value queried, anything else that it is not. -/
def Search.receive (s : Search) (r : Int) : Search :=
  if s.done then s
  else if s.lo < s.hi then
    if r = 1 then ⟨s.lo, midpoint s.lo s.hi - 1, false⟩
    else ⟨midpoint s.lo s.hi, s.hi, false⟩
  else ⟨s.lo, s.hi, true⟩

/-- Modelled from the spec: the contestant of the testable property "a
contestant issuing the optimal binary-search query sequence followed by the
correct answer", which is not among the sources.  It halves the domain with
each response and answers once a single candidate is left. -/
def binarySearch (N_MIN N_MAX : Int) : Strategy := fun rs =>
  (rs.foldl Search.receive ⟨N_MIN, N_MAX, false⟩).send

/-- The values the binary search on `[lo, hi]` queries when the target is `X`,
for at most `d` queries. -/
def bsQueries (X : Int) : Nat → Int → Int → List Int
  | 0, _, _ => []
  | d + 1, lo, hi =>
    if lo < hi then
      midpoint lo hi ::
        (if X < midpoint lo hi then bsQueries X d lo (midpoint lo hi - 1)
         else bsQueries X d (midpoint lo hi) hi)
    else []

/-! ## The loop, one iteration at a time -/

/-- The state at the head of the message loop: the counter `num` and the
unread part of the contestant stream. -/
structure LoopState where
  num : Int
  ouf : List Token
deriving DecidableEq, Repr

/-- The two ways an iteration of `for (int num = 1;; ++num)` ends: a `quit`
inside the body, or the end of the body, after which `++num` leads to the
next iteration.  The loop has no condition and no `break`. -/
inductive Step where
  | quit (o : Outcome)
  | next (ev : List Event) (s : LoopState)
deriving DecidableEq, Repr

/-- One iteration of the message loop of `main`, followed by `++num` when the
body runs to its end. -/
def body (N_MIN N_MAX X : Int) (s : LoopState) : Step :=
  match s.ouf with
  | [] => .quit ⟨[], unexpectedEof⟩
  | t :: rest =>
    if t = .word "?" ∨ t = .word "!" then
      if t = .word "?" then
        if s.num > B then
          .quit ⟨[.read t, .write (-1)], ⟨._wa, "Too many questions"⟩⟩
        else
          match rest with
          | [] => .quit ⟨[.read t], unexpectedEof⟩
          | tv :: rest' =>
            match toIntInRange N_MIN N_MAX tv with
            | .error e => .quit ⟨[.read t, .read tv], e⟩
            | .ok v =>
              if X < v then
                .next [.read t, .read tv, .write 1] ⟨s.num + 1, rest'⟩
              else
                .next [.read t, .read tv, .write 0] ⟨s.num + 1, rest'⟩
      else
        match rest with
        | [] => .quit ⟨[.read t], unexpectedEof⟩
        | tv :: _ =>
          match toIntInRange N_MIN N_MAX tv with
          | .error e => .quit ⟨[.read t, .read tv], e⟩
          | .ok v =>
            if X = v then
              .quit ⟨[.read t, .read tv, .write 1],
                ⟨._ok, "Guessed the number in " ++ toString (s.num - 1) ++ " questions"⟩⟩
            else
              .quit ⟨[.read t, .read tv, .write (-1)], ⟨._wa, "Guessed the wrong number"⟩⟩
    else
      .quit ⟨[.read t], ensureFailed⟩

/-- The state in which `main` enters the loop: `int num = 1`. -/
def initial (ouf : List Token) : LoopState := ⟨1, ouf⟩

/-- The state at the head of the loop after `k` complete iterations, if the
loop gets that far. -/
def iterate (N_MIN N_MAX X : Int) : Nat → LoopState → Option LoopState
  | 0, s => some s
  | k + 1, s =>
    match body N_MIN N_MAX X s with
    | .quit _ => none
    | .next _ s' => iterate N_MIN N_MAX X k s'

/-- The number of messages processed so far, at the head of the loop: the
counter `num` is the number of the message about to be read. -/
def messages_seen (s : LoopState) : Int := s.num - 1

end InteractiveChecker

/-! # The generator of `sample-problem-interactive`

`example/sample-problem-interactive/src/gen/01_random.cpp`.  The Mersenne
twister itself belongs to the standard library; `gen` is the first value of
`std::mt19937` as a function of the seed, a 32-bit value held in the unsigned
type `uint_fast32_t`, whose width `bits` (32 or 64) depends on the platform.
-/

namespace InteractiveGenerator

/-- The conversion of an integer value to `int`: the value modulo `2 ^ 32`
that lies in `[-2 ^ 31, 2 ^ 31)`. -/
def toInt (x : Int) : Int := (x + 2 ^ 31) % 2 ^ 32 - 2 ^ 31

/-- The conversion of an integer value to the unsigned type of `bits` bits. -/
def toUnsigned (bits : Nat) (x : Int) : Int := x % 2 ^ bits

/-- The width of the range, `int w = N_MAX + 1 - N_MIN`, in `int`
arithmetic. -/
def w (N_MIN N_MAX : Int) : Int := toInt (toInt (N_MAX + 1) - N_MIN)

/-- The value `int n = gen() % w + N_MIN` for the generator output `g`: both
`w` and `N_MIN` are converted to the unsigned type of `gen()`, the remainder
and the sum are formed there, and the sum is converted back to `int`. -/
def n (bits : Nat) (N_MIN N_MAX g : Int) : Int :=
  toInt (toUnsigned bits (g % toUnsigned bits (w N_MIN N_MAX) + toUnsigned bits N_MIN))

/-- The number `main` prints for the seed `seed`. -/
def main (bits : Nat) (N_MIN N_MAX : Int) (gen : Int → Int) (seed : Int) : Int :=
  n bits N_MIN N_MAX (gen seed)

end InteractiveGenerator

/-! # The slow solution and the validator of `sample`

`sample/sol/tle.cpp` and `sample/verifier.cpp`.  `N_MAX` comes from
`include/params.hpp`, which is not part of the sources at hand; it is a
parameter.
-/

namespace SampleTle

def LLONG_MIN : Int := -9223372036854775808

def LLONG_MAX : Int := 9223372036854775807

/-- The value fits the C++ type `long long`. -/
def isInt64 (v : Int) : Prop := LLONG_MIN ≤ v ∧ v ≤ LLONG_MAX

instance (v : Int) : Decidable (isInt64 v) := by
  unfold isInt64; infer_instance

/-- The value of a `long long` expression whose exact result is `x`: the
value modulo `2 ^ 64` that lies in `[-2 ^ 63, 2 ^ 63)`. -/
def toLongLong (x : Int) : Int := (x + 2 ^ 63) % 2 ^ 64 - 2 ^ 63

/-- The recursive `add(x, y)`; `fuel` bounds the number of nested calls, and
`none` is a recursion that has not returned within it. -/
def add : Nat → Int → Int → Option Int
  | 0, _, _ => none
  | fuel + 1, x, y =>
    if x = 0 then some y
    else add fuel (toLongLong (x - 1)) (toLongLong (y + 1))

/-- The number `main` prints for the input `x y`. -/
def main (fuel : Nat) (x y : Int) : Option Int := add fuel x y

end SampleTle

namespace SampleVerifier

/-- The validator accepts the input `A B`: both `readLong(0, N_MAX, ...)`
succeed.  The layout checks (one space, one newline, end of file) are about
the characters between the numbers and are left out. -/
def main (N_MAX A B : Int) : Bool :=
  decide (0 ≤ A ∧ A ≤ N_MAX) && decide (0 ≤ B ∧ B ≤ N_MAX)

end SampleVerifier

/-! # The two batch checkers of `sample-problem`

`checker_testlib_style.cpp` and `checker_yukicoder_style.cpp`, on the integers
they extract from their files: `x y` from the input, the contestant's output
(a file for the first, standard input for the second) and the judge's output.
-/

/-- What a batch checker leaves behind: its exit status and the line it
writes to `std::cerr`. -/
structure CheckerRun where
  status : Int
  stderr : String
deriving DecidableEq, Repr

namespace CheckerTestlibStyle

set_option linter.unusedVariables false in
/-- The exit status and message of `main`; `x` and `y` are read and not
used. -/
def main (x y contestant_output judge_output : Int) : CheckerRun :=
  if contestant_output = judge_output then
    ⟨0, "AC"⟩
  else
    ⟨1, "WA: expected = " ++ toString judge_output ++ ", actual = "
      ++ toString contestant_output⟩

end CheckerTestlibStyle

namespace CheckerYukicoderStyle

set_option linter.unusedVariables false in
/-- The exit status and message of `main`; `x` and `y` are read and not
used. -/
def main (x y judge_output contestant_output : Int) : CheckerRun :=
  if contestant_output = judge_output then
    ⟨0, "AC"⟩
  else
    ⟨1, "WA: expected = " ++ toString judge_output ++ ", actual = "
      ++ toString contestant_output⟩

end CheckerYukicoderStyle

namespace InteractiveChecker

/-! ## Basic facts about the loop -/

theorem toIntInRange_inDomain {N_MIN N_MAX v : Int} (hmin : isInt32 N_MIN)
    (hmax : isInt32 N_MAX) (hv : inDomain N_MIN N_MAX v) :
    toIntInRange N_MIN N_MAX (.int v) = .ok v := by
  have h32 : isInt32 v := ⟨le_trans hmin.1 hv.1, le_trans hv.2 hmax.2⟩
  have hr : ¬ (v < N_MIN ∨ N_MAX < v) := by
    rintro (h | h)
    · exact absurd hv.1 (not_le.mpr h)
    · exact absurd hv.2 (not_le.mpr h)
  simp [toIntInRange, h32, hr]

theorem toIntInRange_outside {N_MIN N_MAX v : Int} (hv : ¬ inDomain N_MIN N_MAX v) :
    ∃ e, toIntInRange N_MIN N_MAX (.int v) = .error e ∧ e.result.kind = .Rejected := by
  by_cases h32 : isInt32 v
  · have hr : v < N_MIN ∨ N_MAX < v := by
      unfold inDomain at hv
      by_contra hc
      push_neg at hc
      exact hv hc
    exact ⟨⟨._wa, "Integer violates the range"⟩, by simp [toIntInRange, h32, hr], rfl⟩
  · exact ⟨⟨._pe, "Expected int32"⟩, by simp [toIntInRange, h32], rfl⟩

theorem loop_over_budget (N_MIN N_MAX X num : Int) (h : B < num) (rest : List Token) :
    loop N_MIN N_MAX X num (.word "?" :: rest)
      = ⟨[.read (.word "?"), .write (-1)], ⟨._wa, "Too many questions"⟩⟩ := by
  rw [loop.eq_def]
  simp [h]

theorem loop_query {N_MIN N_MAX : Int} (X : Int) {num v : Int} (hmin : isInt32 N_MIN)
    (hmax : isInt32 N_MAX) (h : num ≤ B) (hv : inDomain N_MIN N_MAX v) (rest : List Token) :
    loop N_MIN N_MAX X num (.word "?" :: .int v :: rest)
      = (loop N_MIN N_MAX X (num + 1) rest).after
          [.read (.word "?"), .read (.int v), .write (comparison X v)] := by
  have hb : ¬ B < num := not_lt.mpr h
  rw [loop.eq_def]
  simp only [toIntInRange_inDomain hmin hmax hv, comparison]
  by_cases hx : X < v <;> simp [hb, hx]

theorem loop_answer {N_MIN N_MAX : Int} (X num : Int) {v : Int} (hmin : isInt32 N_MIN)
    (hmax : isInt32 N_MAX) (hv : inDomain N_MIN N_MAX v) (rest : List Token) :
    loop N_MIN N_MAX X num (.word "!" :: .int v :: rest)
      = if X = v then
          ⟨[.read (.word "!"), .read (.int v), .write 1],
            ⟨._ok, "Guessed the number in " ++ toString (num - 1) ++ " questions"⟩⟩
        else
          ⟨[.read (.word "!"), .read (.int v), .write (-1)],
            ⟨._wa, "Guessed the wrong number"⟩⟩ := by
  rw [loop.eq_def]
  simp only [toIntInRange_inDomain hmin hmax hv]
  simp

theorem main_eq_loop (N_MIN N_MAX : Int) {X : Int} (hX : isInt32 X) (more ouf : List Token) :
    main N_MIN N_MAX (.int X :: more) ouf = loop N_MIN N_MAX X 1 ouf := by
  simp [main, readTarget, hX]

theorem writes_append (a b : List Event) : writes (a ++ b) = writes a ++ writes b := by
  induction a with
  | nil => rfl
  | cons e es ih => cases e <;> simp [writes, ih]

theorem written_after (ev : List Event) (o : Outcome) :
    (o.after ev).written = writes ev ++ o.written := by
  simp [Outcome.written, Outcome.after, writes_append]

theorem after_after (a b : List Event) (o : Outcome) :
    (o.after b).after a = o.after (a ++ b) := by
  simp [Outcome.after]

theorem verdict_after (ev : List Event) (o : Outcome) : (o.after ev).verdict = o.verdict := rfl

theorem trace_after (ev : List Event) (o : Outcome) : (o.after ev).trace = ev ++ o.trace := rfl

theorem writes_queryEvents (X : Int) (qs : List Int) :
    writes (queryEvents X qs) = qs.map (comparison X) := by
  induction qs with
  | nil => rfl
  | cons v vs ih => simp [queryEvents, writes, ih]

theorem encode_append (a b : List Message) : encode (a ++ b) = encode a ++ encode b := by
  induction a with
  | nil => rfl
  | cons m ms ih => simp [encode, ih]

/-- A run of in-domain queries that stays within the budget is answered query
by query, and the loop goes on with the counter advanced by their number. -/
theorem loop_queries {N_MIN N_MAX : Int} (X : Int) (hmin : isInt32 N_MIN)
    (hmax : isInt32 N_MAX) (qs : List Int) (hqs : ∀ q ∈ qs, inDomain N_MIN N_MAX q)
    (num : Int) (hk : num + qs.length ≤ B + 1) (rest : List Token) :
    loop N_MIN N_MAX X num (encode (qs.map .Query) ++ rest)
      = (loop N_MIN N_MAX X (num + qs.length) rest).after (queryEvents X qs) := by
  induction qs generalizing num with
  | nil => simp [encode, queryEvents, Outcome.after]
  | cons v vs ih =>
    have hv : inDomain N_MIN N_MAX v := hqs v (List.mem_cons_self _ _)
    have hvs : ∀ q ∈ vs, inDomain N_MIN N_MAX q := fun q hq => hqs q (List.mem_cons_of_mem _ hq)
    have hlen : ((v :: vs).length : Int) = (vs.length : Int) + 1 := by simp
    have hnum : num ≤ B := by omega
    have hstep : num + 1 + (vs.length : Int) ≤ B + 1 := by omega
    have hidx : num + ((v :: vs).length : Int) = num + 1 + (vs.length : Int) := by omega
    simp only [List.map_cons, encode, Message.tokens, List.cons_append, List.nil_append]
    rw [loop_query X hmin hmax hnum hv, ih hvs (num + 1) hstep, after_after, hidx]
    rfl

theorem loop_query_error (N_MIN N_MAX X num : Int) {tv : Token} {e : Verdict}
    (he : toIntInRange N_MIN N_MAX tv = .error e) (rest : List Token) :
    loop N_MIN N_MAX X num (.word "?" :: tv :: rest)
      = if B < num then
          ⟨[.read (.word "?"), .write (-1)], ⟨._wa, "Too many questions"⟩⟩
        else ⟨[.read (.word "?"), .read tv], e⟩ := by
  rw [loop.eq_def]
  simp [he]

theorem loop_answer_error (N_MIN N_MAX X num : Int) {tv : Token} {e : Verdict}
    (he : toIntInRange N_MIN N_MAX tv = .error e) (rest : List Token) :
    loop N_MIN N_MAX X num (.word "!" :: tv :: rest)
      = ⟨[.read (.word "!"), .read tv], e⟩ := by
  rw [loop.eq_def]
  simp [he]

theorem loop_unknown (N_MIN N_MAX X num : Int) {t : Token} (hq : t ≠ .word "?")
    (ha : t ≠ .word "!") (rest : List Token) :
    loop N_MIN N_MAX X num (t :: rest) = ⟨[.read t], ensureFailed⟩ := by
  rw [loop.eq_def]
  simp [hq, ha]

theorem main_load_failure (N_MIN N_MAX : Int) {inf : List Token} {e : Verdict}
    (he : readTarget inf = .error e) (ouf : List Token) :
    main N_MIN N_MAX inf ouf = ⟨[], e⟩ := by
  simp [main, he]

theorem readTarget_error_fail {inf : List Token} {e : Verdict}
    (he : readTarget inf = .error e) : e.result = ._fail := by
  cases inf with
  | nil => simp [readTarget] at he; rw [← he]
  | cons t ts =>
    cases t with
    | word w => simp [readTarget] at he; rw [← he]
    | int v =>
      by_cases h : isInt32 v
      · simp [readTarget, h] at he
      · simp [readTarget, h] at he; rw [← he]

theorem loop_nil (N_MIN N_MAX X num : Int) :
    loop N_MIN N_MAX X num [] = ⟨[], unexpectedEof⟩ := by
  rw [loop.eq_def]

/-- On a stream of in-domain messages the events of the loop are the
exchanges of the messages it gets to. -/
theorem loop_encode_trace {N_MIN N_MAX : Int} (X : Int) (hmin : isInt32 N_MIN)
    (hmax : isInt32 N_MAX) (ms : List Message)
    (hms : ∀ m ∈ ms, inDomain N_MIN N_MAX m.value) (num : Int) :
    (loop N_MIN N_MAX X num (encode ms)).trace = exchanges X num (consumedMessages num ms) := by
  induction ms generalizing num with
  | nil => simp [encode, loop_nil, consumedMessages, exchanges]
  | cons m ms ih =>
    have hm : inDomain N_MIN N_MAX m.value := hms m (List.mem_cons_self _ _)
    have hrest : ∀ m' ∈ ms, inDomain N_MIN N_MAX m'.value :=
      fun m' h => hms m' (List.mem_cons_of_mem _ h)
    cases m with
    | Query v =>
      replace hm : inDomain N_MIN N_MAX v := hm
      by_cases hb : B < num
      · simp only [encode, Message.tokens, List.cons_append, List.nil_append]
        rw [loop_over_budget N_MIN N_MAX X num hb]
        simp [consumedMessages, Message.terminal, exchanges, Message.reads, Message.response, hb]
      · simp only [encode, Message.tokens, List.cons_append, List.nil_append]
        rw [loop_query X hmin hmax (not_lt.mp hb) hm, trace_after, ih hrest (num + 1)]
        simp [consumedMessages, Message.terminal, exchanges, Message.reads, Message.response,
          hb, comparison]
    | Answer v =>
      replace hm : inDomain N_MIN N_MAX v := hm
      simp only [encode, Message.tokens, List.cons_append, List.nil_append]
      rw [loop_answer X num hmin hmax hm]
      by_cases hx : X = v <;>
        simp [consumedMessages, Message.terminal, exchanges, Message.reads, Message.response, hx]

theorem writes_map_read (ts : List Token) : writes (ts.map .read) = [] := by
  induction ts with
  | nil => rfl
  | cons t ts ih => simpa [writes] using ih

theorem writes_exchanges (X num : Int) (ms : List Message) :
    writes (exchanges X num ms) = responses X num ms := by
  induction ms generalizing num with
  | nil => rfl
  | cons m ms ih =>
    simp [exchanges, responses, writes_append, writes_map_read, writes, ih]

theorem length_responses (X num : Int) (ms : List Message) :
    (responses X num ms).length = ms.length := by
  induction ms generalizing num with
  | nil => rfl
  | cons m ms ih => simp [responses, ih]

theorem consumedMessages_initial (num : Int) (ms : List Message) :
    consumedMessages num ms <+: ms := by
  induction ms generalizing num with
  | nil => simp [consumedMessages]
  | cons m ms ih =>
    by_cases h : m.terminal num = true
    · simp [consumedMessages, h]
    · simp only [consumedMessages, h]
      simpa using ih (num + 1)

/-! ## The binary search against the checker -/

theorem midpoint_bounds {lo hi : Int} (h : lo < hi) :
    lo < midpoint lo hi ∧ midpoint lo hi ≤ hi := by
  unfold midpoint
  constructor <;> omega

theorem length_bsQueries (X : Int) (d : Nat) (lo hi : Int) :
    (bsQueries X d lo hi).length ≤ d := by
  induction d generalizing lo hi with
  | zero => simp [bsQueries]
  | succ d ih =>
    unfold bsQueries
    by_cases hlt : lo < hi
    · by_cases hx : X < midpoint lo hi
      · simpa [hlt, hx] using ih lo (midpoint lo hi - 1)
      · simpa [hlt, hx] using ih (midpoint lo hi) hi
    · simp [hlt]

theorem bsQueries_bounds (X : Int) (d : Nat) (lo hi : Int) :
    ∀ q ∈ bsQueries X d lo hi, lo ≤ q ∧ q ≤ hi := by
  induction d generalizing lo hi with
  | zero => simp [bsQueries]
  | succ d ih =>
    intro q hq
    unfold bsQueries at hq
    by_cases hlt : lo < hi
    · have hm := midpoint_bounds hlt
      by_cases hx : X < midpoint lo hi
      · simp only [hlt, hx, if_true, List.mem_cons] at hq
        rcases hq with rfl | hq
        · exact ⟨le_of_lt hm.1, hm.2⟩
        · have := ih lo (midpoint lo hi - 1) q hq
          omega
      · simp only [hlt, hx, if_true, if_false, List.mem_cons] at hq
        rcases hq with rfl | hq
        · exact ⟨le_of_lt hm.1, hm.2⟩
        · have := ih (midpoint lo hi) hi q hq
          omega
    · simp [hlt] at hq

/-- With a single candidate left the binary search answers it and stops. -/
theorem search_single (X : Int) (k : Nat) :
    ((([1] : List Int).take k).foldl Search.receive ⟨X, X, false⟩).send
      = encode ((([Message.Answer X]).drop k).take 1) := by
  cases k with
  | zero => simp [Search.send, encode, Message.tokens]
  | succ k => simp [Search.receive, Search.send, encode]

/-- The binary search on `[lo, hi]`, fed the checker's responses for target
`X`, sends the queries `bsQueries` one by one, then the answer `X`, then
nothing. -/
theorem search_sends (X : Int) (d : Nat) (lo hi : Int) (h1 : lo ≤ X) (h2 : X ≤ hi)
    (h3 : hi - lo + 1 ≤ 2 ^ d) (k : Nat) :
    ((((bsQueries X d lo hi).map (comparison X) ++ [1]).take k).foldl Search.receive
        ⟨lo, hi, false⟩).send
      = encode ((((bsQueries X d lo hi).map Message.Query
          ++ [Message.Answer X]).drop k).take 1) := by
  induction d generalizing lo hi k with
  | zero =>
    have hlo : lo = X := by simp at h3; omega
    have hhi : hi = X := by simp at h3; omega
    rw [hlo, hhi]
    simpa [bsQueries] using search_single X k
  | succ d ih =>
    by_cases hlt : lo < hi
    · have hm := midpoint_bounds hlt
      have hp : (2 : Int) ^ (d + 1) = 2 * 2 ^ d := by ring
      rw [hp] at h3
      have hmid : midpoint lo hi = lo + (hi - lo + 1) / 2 := rfl
      cases k with
      | zero => simp [bsQueries, hlt, Search.send, encode, Message.tokens]
      | succ k =>
        by_cases hx : X < midpoint lo hi
        · have hsz : midpoint lo hi - 1 - lo + 1 ≤ 2 ^ d := by
            generalize (2 : Int) ^ d = p at h3 ⊢
            omega
          have := ih lo (midpoint lo hi - 1) h1 (by omega) hsz k
          simpa [bsQueries, hlt, hx, comparison, Search.receive] using this
        · have hsz : hi - midpoint lo hi + 1 ≤ 2 ^ d := by
            generalize (2 : Int) ^ d = p at h3 ⊢
            omega
          have := ih (midpoint lo hi) hi (by omega) h2 hsz k
          simpa [bsQueries, hlt, hx, comparison, Search.receive] using this
    · have hlo : lo = X := by omega
      have hhi : hi = X := by omega
      rw [hlo, hhi]
      simpa [bsQueries] using search_single X k

/-- What the checker has written once it has read the first `k` messages of
a transcript of at most `B` in-domain queries and the right answer. -/
theorem written_transcript_take {N_MIN N_MAX : Int} (X : Int) (hmin : isInt32 N_MIN)
    (hmax : isInt32 N_MAX) (hX : inDomain N_MIN N_MAX X) (qs : List Int)
    (hqs : ∀ q ∈ qs, inDomain N_MIN N_MAX q) (hlen : (qs.length : Int) ≤ B) (k : Nat) :
    (loop N_MIN N_MAX X 1
        (encode ((qs.map Message.Query ++ [Message.Answer X]).take k))).written
      = (qs.map (comparison X) ++ [1]).take k := by
  by_cases hk : k ≤ qs.length
  · have hin : ∀ q ∈ qs.take k, inDomain N_MIN N_MAX q :=
      fun q hq => hqs q (List.mem_of_mem_take hq)
    have hlk : (1 : Int) + ((qs.take k).length : Int) ≤ B + 1 := by
      have : (qs.take k).length ≤ qs.length := by
        rw [List.length_take]
        exact Nat.min_le_right _ _
      omega
    have h := loop_queries X hmin hmax (qs.take k) hin 1 hlk []
    rw [List.append_nil] at h
    rw [List.take_append_of_le_length (by simpa using hk),
      List.take_append_of_le_length (by simpa using hk), ← List.map_take, ← List.map_take,
      h, written_after, writes_queryEvents, loop_nil]
    simp [Outcome.written, writes]
  · have hk2 : qs.length + 1 ≤ k := by omega
    have h := loop_queries X hmin hmax qs hqs 1 (by omega) (encode [.Answer X])
    rw [List.take_of_length_le (by simpa using hk2),
      List.take_of_length_le (by simpa using hk2), encode_append, h, written_after,
      writes_queryEvents]
    simp only [encode, Message.tokens, List.cons_append, List.nil_append, List.append_nil]
    rw [loop_answer X (1 + qs.length) hmin hmax hX]
    simp [Outcome.written, writes]

/-- A strategy that, fed the checker's responses to a transcript, sends the
transcript message by message and then stops, produces this transcript turn
by turn. -/
theorem play_transcript (N_MIN N_MAX : Int) (inf : List Token) (strategy : Strategy)
    (ms : List Message) (rs : List Int)
    (hchecker : ∀ k : Nat, (main N_MIN N_MAX inf (encode (ms.take k))).written = rs.take k)
    (hstrategy : ∀ k : Nat, strategy (rs.take k) = encode ((ms.drop k).take 1)) (n : Nat) :
    play N_MIN N_MAX inf strategy n = encode (ms.take n) := by
  induction n with
  | zero => simp [play, encode]
  | succ n ih =>
    rw [play, ih, hchecker n, hstrategy n, ← encode_append, ← List.take_add]

/-- The run on `k ≤ B` in-domain queries followed by the right answer. -/
theorem main_solved {N_MIN N_MAX : Int} (X : Int) (hmin : isInt32 N_MIN)
    (hmax : isInt32 N_MAX) (hX : inDomain N_MIN N_MAX X) (qs : List Int)
    (hqs : ∀ q ∈ qs, inDomain N_MIN N_MAX q) (hk : (qs.length : Int) ≤ B) :
    (main N_MIN N_MAX [.int X] (encode (qs.map Message.Query ++ [Message.Answer X]))).verdict
      = ⟨._ok, "Guessed the number in " ++ toString qs.length ++ " questions"⟩ := by
  have h32 : isInt32 X := ⟨le_trans hmin.1 hX.1, le_trans hX.2 hmax.2⟩
  rw [main_eq_loop N_MIN N_MAX h32, encode_append,
    loop_queries X hmin hmax qs hqs 1 (by omega), verdict_after]
  simp only [encode, Message.tokens, List.cons_append, List.nil_append, List.append_nil]
  rw [loop_answer X (1 + qs.length) hmin hmax hX]
  have hc : (1 : Int) + (qs.length : Int) - 1 = Int.ofNat qs.length := by
    simp
  simp only [if_true, hc]
  rfl

/-- The loop is its body, iterated. -/
theorem loop_eq_body (N_MIN N_MAX X : Int) (s : LoopState) :
    loop N_MIN N_MAX X s.num s.ouf
      = match body N_MIN N_MAX X s with
        | .quit o => o
        | .next ev s' => (loop N_MIN N_MAX X s'.num s'.ouf).after ev := by
  rw [loop.eq_def, body]
  cases s.ouf with
  | nil => rfl
  | cons t rest =>
    simp only
    split_ifs <;> try rfl
    all_goals
      cases rest with
      | nil => rfl
      | cons tv rest' =>
        simp only
        cases toIntInRange N_MIN N_MAX tv with
        | error e => rfl
        | ok v =>
          simp only
          split_ifs <;> rfl

theorem toIntInRange_error {N_MIN N_MAX : Int} {tv : Token} {e : Verdict}
    (h : toIntInRange N_MIN N_MAX tv = .error e) :
    e ≠ unexpectedEof ∧ e.message ≠ "Unreachable" := by
  cases tv with
  | word w =>
    simp only [toIntInRange, Except.error.injEq] at h
    rw [← h]
    decide
  | int v =>
    simp only [toIntInRange] at h
    split_ifs at h <;>
      (simp only [Except.error.injEq] at h
       rw [← h]
       decide)

/-- An iteration that runs to its end was a query within the budget: it has
read two tokens and advanced the counter by one. -/
theorem body_next {N_MIN N_MAX X : Int} {s s' : LoopState} {ev : List Event}
    (h : body N_MIN N_MAX X s = .next ev s') :
    s.num ≤ B ∧ s'.num = s.num + 1 ∧ ∃ t tv, s.ouf = t :: tv :: s'.ouf := by
  obtain ⟨num, ouf⟩ := s
  simp only [body] at h
  cases ouf with
  | nil => simp at h
  | cons t rest =>
    cases rest with
    | nil =>
      simp only at h
      split_ifs at h
    | cons tv rest' =>
      cases hti : toIntInRange N_MIN N_MAX tv with
      | error e =>
        simp only [hti] at h
        split_ifs at h
      | ok v =>
        simp only [hti] at h
        split_ifs at h with h1 h2 h3 h4
        all_goals
          simp only [Step.next.injEq] at h
          obtain ⟨_, hs⟩ := h
          subst hs
          exact ⟨not_lt.mp h3, rfl, t, tv, rfl⟩

/-- A `quit` inside the body never carries the text "Unreachable", and it is
the end-of-input verdict only when fewer than two tokens were left. -/
theorem body_quit {N_MIN N_MAX X : Int} {s : LoopState} {o : Outcome}
    (h : body N_MIN N_MAX X s = .quit o) :
    o.verdict.message ≠ "Unreachable" ∧ (2 ≤ s.ouf.length → o.verdict ≠ unexpectedEof) := by
  have hok : ∀ n : Int,
      "Guessed the number in " ++ toString n ++ " questions" ≠ "Unreachable" := by
    intro n hn
    have h2 := congrArg String.data hn
    simp only [String.data_append] at h2
    have h3 := congrArg List.head? h2
    simp at h3
  have hm1 : unexpectedEof.message ≠ "Unreachable" := by decide
  have hm2 : ensureFailed.message ≠ "Unreachable" := by decide
  have hm3 : "Too many questions" ≠ "Unreachable" := by decide
  have hm4 : "Guessed the wrong number" ≠ "Unreachable" := by decide
  have he2 : ensureFailed ≠ unexpectedEof := by decide
  have he3 : (⟨._wa, "Too many questions"⟩ : Verdict) ≠ unexpectedEof := by decide
  have he4 : (⟨._wa, "Guessed the wrong number"⟩ : Verdict) ≠ unexpectedEof := by decide
  have he5 : ∀ m : String, (⟨._ok, m⟩ : Verdict) ≠ unexpectedEof := by
    intro m hmv
    have := congrArg Verdict.result hmv
    simp [unexpectedEof] at this
  obtain ⟨num, ouf⟩ := s
  simp only [body] at h
  cases ouf with
  | nil =>
    simp only [Step.quit.injEq] at h
    rw [← h]
    exact ⟨hm1, fun hl => by simp at hl⟩
  | cons t rest =>
    cases rest with
    | nil =>
      simp only at h
      split_ifs at h <;>
        (simp only [Step.quit.injEq] at h
         rw [← h]
         refine ⟨?_, fun hl => by simp at hl⟩
         first
           | exact hm1
           | exact hm2
           | exact hm3)
    | cons tv rest' =>
      cases hti : toIntInRange N_MIN N_MAX tv with
      | error e =>
        have he := toIntInRange_error hti
        simp only [hti] at h
        split_ifs at h <;>
          (simp only [Step.quit.injEq] at h
           rw [← h]
           first
             | exact ⟨he.2, fun _ => he.1⟩
             | exact ⟨hm3, fun _ => he3⟩
             | exact ⟨hm2, fun _ => he2⟩)
      | ok v =>
        simp only [hti] at h
        split_ifs at h <;>
          (simp only [Step.quit.injEq] at h
           rw [← h]
           first
             | exact ⟨hok _, fun _ => he5 _⟩
             | exact ⟨hm3, fun _ => he3⟩
             | exact ⟨hm4, fun _ => he4⟩
             | exact ⟨hm2, fun _ => he2⟩)

theorem body_append_quit {N_MIN N_MAX X : Int} {s : LoopState} {o : Outcome}
    (h : body N_MIN N_MAX X s = .quit o) (hne : o.verdict ≠ unexpectedEof)
    (more : List Token) :
    body N_MIN N_MAX X ⟨s.num, s.ouf ++ more⟩ = .quit o := by
  obtain ⟨num, ouf⟩ := s
  simp only [body] at h ⊢
  cases ouf with
  | nil =>
    simp only [Step.quit.injEq] at h
    rw [← h] at hne
    exact absurd rfl hne
  | cons t rest =>
    cases rest with
    | nil =>
      simp only [List.cons_append, List.nil_append] at h ⊢
      split_ifs at h ⊢ <;>
        first
          | exact h
          | (simp only [Step.quit.injEq] at h
             rw [← h] at hne
             exact absurd rfl hne)
    | cons tv rest' =>
      simp only [List.cons_append] at h ⊢
      cases hti : toIntInRange N_MIN N_MAX tv with
      | error e =>
        simp only [hti] at h ⊢
        exact h
      | ok v =>
        simp only [hti] at h ⊢
        split_ifs at h ⊢ <;> exact h

theorem body_append_next {N_MIN N_MAX X : Int} {s s' : LoopState} {ev : List Event}
    (h : body N_MIN N_MAX X s = .next ev s') (more : List Token) :
    body N_MIN N_MAX X ⟨s.num, s.ouf ++ more⟩ = .next ev ⟨s'.num, s'.ouf ++ more⟩ := by
  obtain ⟨num, ouf⟩ := s
  simp only [body] at h ⊢
  cases ouf with
  | nil => simp at h
  | cons t rest =>
    cases rest with
    | nil =>
      simp only at h
      split_ifs at h
    | cons tv rest' =>
      cases hti : toIntInRange N_MIN N_MAX tv with
      | error e =>
        simp only [hti] at h
        split_ifs at h
      | ok v =>
        simp only [hti, List.cons_append] at h ⊢
        split_ifs at h ⊢ <;>
          (simp only [Step.next.injEq] at h ⊢
           obtain ⟨h1, h2⟩ := h
           subst h2
           exact ⟨h1, rfl⟩)

/-- Induction along the iterations of the loop. -/
theorem loop_induction (N_MIN N_MAX X : Int) (P : LoopState → Outcome → Prop)
    (hquit : ∀ s o, body N_MIN N_MAX X s = .quit o → P s o)
    (hnext : ∀ s ev s', body N_MIN N_MAX X s = .next ev s' →
      P s' (loop N_MIN N_MAX X s'.num s'.ouf) →
      P s ((loop N_MIN N_MAX X s'.num s'.ouf).after ev)) :
    ∀ s : LoopState, P s (loop N_MIN N_MAX X s.num s.ouf) := by
  have key : ∀ (n : Nat) (s : LoopState), s.ouf.length ≤ n →
      P s (loop N_MIN N_MAX X s.num s.ouf) := by
    intro n
    induction n with
    | zero =>
      intro s hs
      rw [loop_eq_body]
      cases hb : body N_MIN N_MAX X s with
      | quit o => exact hquit s o hb
      | next ev s' =>
        obtain ⟨_, _, t, tv, hou⟩ := body_next hb
        rw [hou] at hs
        simp at hs
    | succ n ih =>
      intro s hs
      rw [loop_eq_body]
      cases hb : body N_MIN N_MAX X s with
      | quit o => exact hquit s o hb
      | next ev s' =>
        obtain ⟨_, _, t, tv, hou⟩ := body_next hb
        have hlen : s'.ouf.length ≤ n := by
          rw [hou] at hs
          simp at hs
          omega
        exact hnext s ev s' hb (ih s' hlen)
  intro s
  exact key s.ouf.length s (le_refl _)

theorem loop_message_ne_unreachable (N_MIN N_MAX X num : Int) (ouf : List Token) :
    (loop N_MIN N_MAX X num ouf).verdict.message ≠ "Unreachable" :=
  loop_induction N_MIN N_MAX X (fun _ o => o.verdict.message ≠ "Unreachable")
    (fun _ _ hb => (body_quit hb).1) (fun _ _ _ _ ih => ih) ⟨num, ouf⟩

/-- A run that did not end on the end of input is not changed by tokens added
after the ones it was given: they are never read. -/
theorem loop_append_stable (N_MIN N_MAX X : Int) (more : List Token) (s : LoopState)
    (h : (loop N_MIN N_MAX X s.num s.ouf).verdict ≠ unexpectedEof) :
    loop N_MIN N_MAX X s.num (s.ouf ++ more) = loop N_MIN N_MAX X s.num s.ouf := by
  refine loop_induction N_MIN N_MAX X
    (fun s o => o.verdict ≠ unexpectedEof → loop N_MIN N_MAX X s.num (s.ouf ++ more) = o)
    ?_ ?_ s h
  · intro s o hb hne
    have h1 := loop_eq_body N_MIN N_MAX X ⟨s.num, s.ouf ++ more⟩
    rw [body_append_quit hb hne more] at h1
    exact h1
  · intro s ev s' hb ih hne
    have h1 := loop_eq_body N_MIN N_MAX X ⟨s.num, s.ouf ++ more⟩
    rw [body_append_next hb more] at h1
    simp only at h1
    rw [h1, ih hne]

/-- With enough tokens left for the queries the budget still allows and one
more message, the run does not end on the end of input. -/
theorem loop_no_eof (N_MIN N_MAX X : Int) (s : LoopState) (hnum : s.num ≤ B + 1)
    (hlen : 2 * (B + 1 - s.num) + 2 ≤ (s.ouf.length : Int)) :
    (loop N_MIN N_MAX X s.num s.ouf).verdict ≠ unexpectedEof := by
  refine loop_induction N_MIN N_MAX X
    (fun s o => s.num ≤ B + 1 → 2 * (B + 1 - s.num) + 2 ≤ (s.ouf.length : Int) →
      o.verdict ≠ unexpectedEof) ?_ ?_ s hnum hlen
  · intro s o hb h1 h2
    have h3 : 2 ≤ s.ouf.length := by omega
    exact (body_quit hb).2 h3
  · intro s ev s' hb ih h1 h2
    obtain ⟨hB, hn, t, tv, hou⟩ := body_next hb
    rw [verdict_after]
    apply ih
    · omega
    · rw [hou] at h2
      simp only [List.length_cons] at h2
      push_cast at h2
      omega

/-- From the counter value `num`, fewer than `B + 2 - num` iterations run to
their end. -/
theorem iterate_none (N_MIN N_MAX X : Int) (k : Nat) (s : LoopState)
    (hk : B + 1 < s.num + (k + 1 : Nat)) :
    iterate N_MIN N_MAX X (k + 1) s = none := by
  induction k generalizing s with
  | zero =>
    simp only [iterate]
    cases hb : body N_MIN N_MAX X s with
    | quit o => rfl
    | next ev s' =>
      have := (body_next hb).1
      simp at hk
      omega
  | succ k ih =>
    rw [iterate]
    cases hb : body N_MIN N_MAX X s with
    | quit o => rfl
    | next ev s' =>
      simp only
      apply ih
      have := (body_next hb).2.1
      push_cast at hk ⊢
      omega

theorem body_query {N_MIN N_MAX : Int} (X : Int) {num v : Int} (hmin : isInt32 N_MIN)
    (hmax : isInt32 N_MAX) (h : num ≤ B) (hv : inDomain N_MIN N_MAX v) (rest : List Token) :
    body N_MIN N_MAX X ⟨num, .word "?" :: .int v :: rest⟩
      = .next [.read (.word "?"), .read (.int v), .write (comparison X v)] ⟨num + 1, rest⟩ := by
  have hb : ¬ B < num := not_lt.mpr h
  simp only [body, toIntInRange_inDomain hmin hmax hv, comparison]
  by_cases hx : X < v <;> simp [hb, hx]

/-- After `k` in-domain queries within the budget the loop is at its head with
the counter advanced by `k`. -/
theorem iterate_queries {N_MIN N_MAX : Int} (X : Int) (hmin : isInt32 N_MIN)
    (hmax : isInt32 N_MAX) (qs : List Int) (hqs : ∀ q ∈ qs, inDomain N_MIN N_MAX q)
    (num : Int) (hk : num + qs.length ≤ B + 1) (rest : List Token) :
    iterate N_MIN N_MAX X qs.length ⟨num, encode (qs.map .Query) ++ rest⟩
      = some ⟨num + qs.length, rest⟩ := by
  induction qs generalizing num with
  | nil => simp [encode, iterate]
  | cons v vs ih =>
    have hv : inDomain N_MIN N_MAX v := hqs v (List.mem_cons_self _ _)
    have hvs : ∀ q ∈ vs, inDomain N_MIN N_MAX q := fun q hq => hqs q (List.mem_cons_of_mem _ hq)
    have hlen : ((v :: vs).length : Int) = (vs.length : Int) + 1 := by simp
    have hnum : num ≤ B := by omega
    have hstep : num + 1 + (vs.length : Int) ≤ B + 1 := by omega
    have hidx : num + ((v :: vs).length : Int) = num + 1 + (vs.length : Int) := by omega
    simp only [List.map_cons, encode, Message.tokens, List.cons_append, List.nil_append,
      List.length_cons, iterate]
    rw [body_query X hmin hmax hnum hv]
    simp only
    rw [ih hvs (num + 1) hstep]
    simp only [List.length_cons] at hidx
    rw [hidx]

/-- Only the first `2 * (B + 1) = 16` tokens of the contestant stream can be
read. -/
theorem main_take (N_MIN N_MAX : Int) (inf ouf : List Token) :
    main N_MIN N_MAX inf ouf = main N_MIN N_MAX inf (ouf.take 16) := by
  cases hr : readTarget inf with
  | error e => simp [main, hr]
  | ok X =>
    simp only [main, hr]
    by_cases hl : ouf.length ≤ 16
    · rw [List.take_of_length_le hl]
    · have hlen : (ouf.take 16).length = 16 := by
        rw [List.length_take]
        omega
      have hne : (loop N_MIN N_MAX X 1 (ouf.take 16)).verdict ≠ unexpectedEof := by
        apply loop_no_eof N_MIN N_MAX X ⟨1, ouf.take 16⟩
        · simp [B]
        · simp only [hlen, B]
          norm_num
      have h := loop_append_stable N_MIN N_MAX X (ouf.drop 16) ⟨1, ouf.take 16⟩ hne
      simp only [List.take_append_drop] at h
      exact h

theorem main_message_ne_unreachable (N_MIN N_MAX : Int) (inf ouf : List Token) :
    (main N_MIN N_MAX inf ouf).verdict.message ≠ "Unreachable" := by
  cases hr : readTarget inf with
  | error e =>
    simp only [main, hr]
    cases inf with
    | nil =>
      simp only [readTarget, Except.error.injEq] at hr
      rw [← hr]
      decide
    | cons t ts =>
      cases t with
      | word w =>
        simp only [readTarget, Except.error.injEq] at hr
        rw [← hr]
        decide
      | int v =>
        simp only [readTarget] at hr
        split_ifs at hr
        simp only [Except.error.injEq] at hr
        rw [← hr]
        decide
  | ok X =>
    simp only [main, hr]
    exact loop_message_ne_unreachable N_MIN N_MAX X 1 ouf

/-! ## The claims -/

/-- C1: an `Answer(v)` with `v` in the domain ends the session Accepted (`_ok`)
when `v` is the target and Rejected (`_wa`) when it is not.  This holds at
every value of the message counter, so the budget plays no part, and in
particular after `k ≤ B` in-domain queries from the start of the program. -/
theorem answer_decides_verdict (N_MIN N_MAX X : Int) (hmin : isInt32 N_MIN)
    (hmax : isInt32 N_MAX) (hX : isInt32 X) (qs : List Int)
    (hqs : ∀ q ∈ qs, inDomain N_MIN N_MAX q) (hk : (qs.length : Int) ≤ B)
    (v : Int) (hv : inDomain N_MIN N_MAX v) (rest : List Token) :
    (∀ num : Int,
        (loop N_MIN N_MAX X num (.word "!" :: .int v :: rest)).verdict.result
          = if v = X then ._ok else ._wa) ∧
      (main N_MIN N_MAX [.int X] (encode (qs.map .Query ++ [.Answer v]) ++ rest)).verdict.result
        = (if v = X then ._ok else ._wa) ∧
      (main N_MIN N_MAX [.int X] (encode (qs.map .Query ++ [.Answer v]) ++ rest)).verdict.result.kind
        = (if v = X then .Accepted else .Rejected) := by
  have hstate : ∀ num : Int,
      (loop N_MIN N_MAX X num (.word "!" :: .int v :: rest)).verdict.result
        = if v = X then ._ok else ._wa := by
    intro num
    rw [loop_answer X num hmin hmax hv]
    by_cases h : X = v
    · simp [h]
    · have h2 : ¬ v = X := fun e => h e.symm
      simp [h, h2]
  have hrun : (main N_MIN N_MAX [.int X] (encode (qs.map .Query ++ [.Answer v]) ++ rest)).verdict.result
      = (if v = X then ._ok else ._wa) := by
    rw [main_eq_loop N_MIN N_MAX hX, encode_append, List.append_assoc,
      loop_queries X hmin hmax qs hqs 1 (by omega), verdict_after]
    simpa [encode, Message.tokens] using hstate (1 + qs.length)
  refine ⟨hstate, hrun, ?_⟩
  rw [hrun]
  by_cases h : v = X <;> simp [h, TResult.kind]

theorem answer_decides_verdict_witness :
    (∀ num : Int,
        (loop 1 100 42 num (.word "!" :: .int 42 :: [])).verdict.result
          = if (42 : Int) = 42 then ._ok else ._wa) ∧
      (main 1 100 [.int 42] (encode ([50, 25, 37, 43, 40, 41, 42].map .Query ++ [.Answer 42])
          ++ [])).verdict.result
        = (if (42 : Int) = 42 then ._ok else ._wa) ∧
      (main 1 100 [.int 42] (encode ([50, 25, 37, 43, 40, 41, 42].map .Query ++ [.Answer 42])
          ++ [])).verdict.result.kind
        = (if (42 : Int) = 42 then .Accepted else .Rejected) :=
  answer_decides_verdict 1 100 42 (by decide) (by decide) (by decide)
    [50, 25, 37, 43, 40, 41, 42] (by decide) (by decide) 42 (by decide) []

/-- C2: on `B + 1 = 8` in-domain queries the checker answers the first `B` of
them with the comparison result and goes on reading; on the next `?` it writes
the sentinel `-1` and quits with `_wa` (Rejected), without reading the integer
of that query.  The reason is spelled "Too many questions" in the code, which
is the claim's "too many questions" up to the case of its letters. -/
theorem budget_exceeded (N_MIN N_MAX X : Int) (hmin : isInt32 N_MIN) (hmax : isInt32 N_MAX)
    (hX : isInt32 X) (qs : List Int) (hqs : ∀ q ∈ qs, inDomain N_MIN N_MAX q)
    (hlen : (qs.length : Int) = B) (v : Int) (rest : List Token) :
    main N_MIN N_MAX [.int X] (encode ((qs ++ [v]).map .Query) ++ rest)
        = ⟨queryEvents X qs ++ [.read (.word "?"), .write (-1)],
            ⟨._wa, "Too many questions"⟩⟩ ∧
      (main N_MIN N_MAX [.int X] (encode ((qs ++ [v]).map .Query) ++ rest)).written
        = qs.map (fun q => if X < q then 1 else 0) ++ [-1] ∧
      (main N_MIN N_MAX [.int X] (encode ((qs ++ [v]).map .Query) ++ rest)).verdict.result.kind
        = .Rejected ∧
      (main N_MIN N_MAX [.int X] (encode ((qs ++ [v]).map .Query) ++ rest)).verdict.message.data.map
          Char.toLower
        = "too many questions".data := by
  have hrun : main N_MIN N_MAX [.int X] (encode ((qs ++ [v]).map .Query) ++ rest)
      = ⟨queryEvents X qs ++ [.read (.word "?"), .write (-1)],
          ⟨._wa, "Too many questions"⟩⟩ := by
    rw [main_eq_loop N_MIN N_MAX hX, List.map_append, encode_append, List.append_assoc,
      loop_queries X hmin hmax qs hqs 1 (by omega)]
    simp only [List.map_cons, List.map_nil, encode, Message.tokens, List.cons_append,
      List.nil_append]
    rw [loop_over_budget N_MIN N_MAX X (1 + qs.length) (by omega)]
    rfl
  refine ⟨hrun, ?_, ?_, ?_⟩
  · rw [hrun]
    simp only [Outcome.written, writes_append, writes_queryEvents, writes]
    rfl
  · rw [hrun]; rfl
  · rw [hrun]
    show "Too many questions".data.map Char.toLower = "too many questions".data
    decide

theorem budget_exceeded_witness :
    main 1 10 [.int 3] (encode (([5, 2, 3, 4, 3, 3, 3] ++ [3]).map .Query) ++ [])
        = ⟨queryEvents 3 [5, 2, 3, 4, 3, 3, 3] ++ [.read (.word "?"), .write (-1)],
            ⟨._wa, "Too many questions"⟩⟩ ∧
      (main 1 10 [.int 3] (encode (([5, 2, 3, 4, 3, 3, 3] ++ [3]).map .Query) ++ [])).written
        = [5, 2, 3, 4, 3, 3, 3].map (fun q => if (3 : Int) < q then 1 else 0) ++ [-1] ∧
      (main 1 10 [.int 3]
          (encode (([5, 2, 3, 4, 3, 3, 3] ++ [3]).map .Query) ++ [])).verdict.result.kind
        = .Rejected ∧
      (main 1 10 [.int 3]
          (encode (([5, 2, 3, 4, 3, 3, 3] ++ [3]).map .Query) ++ [])).verdict.message.data.map
          Char.toLower
        = "too many questions".data :=
  budget_exceeded 1 10 3 (by decide) (by decide) (by decide) [5, 2, 3, 4, 3, 3, 3]
    (by decide) (by decide) 3 []

/-- C3, as stated, fails: with target 512 the queries 500 and 750 are answered
`0` and `1`, not `sign (512 - 500) = 1` and `sign (512 - 750) = -1`. -/
theorem response_is_not_sign :
    (main 1 1000 [.int 512] [.word "?", .int 500, .word "?", .int 750]).written = [0, 1] ∧
      (main 1 1000 [.int 512] [.word "?", .int 500, .word "?", .int 750]).written
        ≠ [Int.sign (512 - 500), Int.sign (512 - 750)] := by
  decide

/-- C3, amended: a query `v` in the domain, received while the counter is
within the budget, is answered `1` when the target is below `v` and `0`
otherwise (target equal to or above `v`), a value in `{0, 1}`; the loop then
goes on with the next message.  With target 512 the query 500 is answered `0`
and the query 750 is answered `1`. -/
theorem query_response (N_MIN N_MAX X num v : Int) (hmin : isInt32 N_MIN)
    (hmax : isInt32 N_MAX) (hnum : num ≤ B) (hv : inDomain N_MIN N_MAX v)
    (rest : List Token) :
    (loop N_MIN N_MAX X num (.word "?" :: .int v :: rest)).written
        = (if X < v then 1 else 0) :: (loop N_MIN N_MAX X (num + 1) rest).written ∧
      ((if X < v then 1 else 0 : Int) = 0 ∨ (if X < v then 1 else 0 : Int) = 1) ∧
      (main 1 1000 [.int 512] [.word "?", .int 500]).written = [0] ∧
      (main 1 1000 [.int 512] [.word "?", .int 750]).written = [1] := by
  refine ⟨?_, ?_, by decide, by decide⟩
  · rw [loop_query X hmin hmax hnum hv, written_after]
    simp [writes, comparison]
  · by_cases h : X < v <;> simp [h]

theorem query_response_witness :
    (loop 1 1000 512 2 (.word "?" :: .int 750 :: [.word "!", .int 512])).written
        = (if (512 : Int) < 750 then 1 else 0)
            :: (loop 1 1000 512 (2 + 1) [.word "!", .int 512]).written ∧
      ((if (512 : Int) < 750 then 1 else 0 : Int) = 0
        ∨ (if (512 : Int) < 750 then 1 else 0 : Int) = 1) ∧
      (main 1 1000 [.int 512] [.word "?", .int 500]).written = [0] ∧
      (main 1 1000 [.int 512] [.word "?", .int 750]).written = [1] :=
  query_response 1 1000 512 2 750 (by decide) (by decide) (by decide) (by decide)
    [.word "!", .int 512]

/-- C4, as stated, fails: on the domain `[1, 1000]` with target 512 the binary
search needs more than `B = 7` queries; over the eleven turns that ten queries
and an answer would take, its eighth query is met with the sentinel and the
session ends with `_wa`, "Too many questions". -/
theorem binary_search_over_budget :
    inDomain 1 1000 512 ∧
      (main 1 1000 [.int 512] (play 1 1000 [.int 512] (binarySearch 1 1000) 11)).verdict
        = ⟨._wa, "Too many questions"⟩ ∧
      (main 1 1000 [.int 512]
          (play 1 1000 [.int 512] (binarySearch 1 1000) 11)).verdict.result.kind
        ≠ .Accepted := by
  decide

/-- C4, amended: when the domain has at most `2 ^ B = 128` values and the
target lies in it, the session of the checker against the binary search ends
with `_ok` (Accepted) once the contestant has had its `B + 1` turns; the
number of queries reported is at most `⌈log2 (N_MAX - N_MIN + 1)⌉` and at most
`B`. -/
theorem binary_search_accepted (N_MIN N_MAX X : Int) (hmin : isInt32 N_MIN)
    (hmax : isInt32 N_MAX) (hX : inDomain N_MIN N_MAX X)
    (hsize : N_MAX - N_MIN + 1 ≤ 2 ^ 7) (n : Nat) (hn : 8 ≤ n) :
    ∃ q : Nat, q ≤ Nat.clog 2 (N_MAX - N_MIN + 1).toNat ∧ (q : Int) ≤ B ∧
      (main N_MIN N_MAX [.int X]
          (play N_MIN N_MAX [.int X] (binarySearch N_MIN N_MAX) n)).verdict
        = ⟨._ok, "Guessed the number in " ++ toString q ++ " questions"⟩ ∧
      (main N_MIN N_MAX [.int X]
          (play N_MIN N_MAX [.int X] (binarySearch N_MIN N_MAX) n)).verdict.result.kind
        = .Accepted := by
  have h32 : isInt32 X := ⟨le_trans hmin.1 hX.1, le_trans hX.2 hmax.2⟩
  have hpos : 0 ≤ N_MAX - N_MIN + 1 := by
    have := hX.1
    have := hX.2
    omega
  have hd7 : Nat.clog 2 (N_MAX - N_MIN + 1).toNat ≤ 7 := by
    apply (Nat.le_pow_iff_clog_le (by norm_num)).mp
    have : (N_MAX - N_MIN + 1).toNat ≤ 128 := by
      rw [Int.toNat_le]
      simpa using hsize
    simpa using this
  have hd : N_MAX - N_MIN + 1 ≤ 2 ^ Nat.clog 2 (N_MAX - N_MIN + 1).toNat := by
    have h := Nat.le_pow_clog (by norm_num : 1 < 2) (N_MAX - N_MIN + 1).toNat
    have hc : ((N_MAX - N_MIN + 1).toNat : Int) = N_MAX - N_MIN + 1 := Int.toNat_of_nonneg hpos
    have h2 : ((N_MAX - N_MIN + 1).toNat : Int)
        ≤ ((2 ^ Nat.clog 2 (N_MAX - N_MIN + 1).toNat : Nat) : Int) := by
      exact_mod_cast h
    rw [hc] at h2
    simpa using h2
  have hlen := length_bsQueries X (Nat.clog 2 (N_MAX - N_MIN + 1).toNat) N_MIN N_MAX
  have hqs : ∀ q ∈ bsQueries X (Nat.clog 2 (N_MAX - N_MIN + 1).toNat) N_MIN N_MAX,
      inDomain N_MIN N_MAX q :=
    bsQueries_bounds X (Nat.clog 2 (N_MAX - N_MIN + 1).toNat) N_MIN N_MAX
  have hB : ((bsQueries X (Nat.clog 2 (N_MAX - N_MIN + 1).toNat) N_MIN N_MAX).length : Int)
      ≤ B := by
    have : (bsQueries X (Nat.clog 2 (N_MAX - N_MIN + 1).toNat) N_MIN N_MAX).length ≤ 7 :=
      le_trans hlen hd7
    simp only [B]
    omega
  have hplay := play_transcript N_MIN N_MAX [.int X] (binarySearch N_MIN N_MAX)
    ((bsQueries X (Nat.clog 2 (N_MAX - N_MIN + 1).toNat) N_MIN N_MAX).map Message.Query
      ++ [Message.Answer X])
    ((bsQueries X (Nat.clog 2 (N_MAX - N_MIN + 1).toNat) N_MIN N_MAX).map (comparison X) ++ [1])
    (fun k => by
      rw [main_eq_loop N_MIN N_MAX h32]
      exact written_transcript_take X hmin hmax hX _ hqs hB k)
    (fun k => search_sends X _ N_MIN N_MAX hX.1 hX.2 hd k) n
  have htake : (((bsQueries X (Nat.clog 2 (N_MAX - N_MIN + 1).toNat) N_MIN N_MAX).map
      Message.Query ++ [Message.Answer X]).take n)
      = (bsQueries X (Nat.clog 2 (N_MAX - N_MIN + 1).toNat) N_MIN N_MAX).map Message.Query
        ++ [Message.Answer X] := by
    apply List.take_of_length_le
    simp only [List.length_append, List.length_map, List.length_singleton]
    omega
  have hverdict := main_solved X hmin hmax hX _ hqs hB
  refine ⟨(bsQueries X (Nat.clog 2 (N_MAX - N_MIN + 1).toNat) N_MIN N_MAX).length, hlen, hB,
    ?_, ?_⟩
  · rw [hplay, htake, hverdict]
  · rw [hplay, htake, hverdict]
    rfl

theorem binary_search_accepted_witness :
    ∃ q : Nat, q ≤ Nat.clog 2 ((100 : Int) - 1 + 1).toNat ∧ (q : Int) ≤ B ∧
      (main 1 100 [.int 37] (play 1 100 [.int 37] (binarySearch 1 100) 8)).verdict
        = ⟨._ok, "Guessed the number in " ++ toString q ++ " questions"⟩ ∧
      (main 1 100 [.int 37] (play 1 100 [.int 37] (binarySearch 1 100) 8)).verdict.result.kind
        = .Accepted :=
  binary_search_accepted 1 100 37 (by decide) (by decide) (by decide) (by decide) 8
    (by decide)

/-- C5: at every value of the message counter and for every target, a `?` or
`!` message whose integer lies outside `[N_MIN, N_MAX]` ends the session with a
contestant-blamed verdict (Rejected), never `_fail`.  The run does not depend
on the target at all, so the value is not compared with it; nothing is written
for it except the sentinel `-1` of a query that is over the budget. -/
theorem out_of_domain_rejected (N_MIN N_MAX X num v : Int)
    (hv : ¬ inDomain N_MIN N_MAX v) (rest : List Token) :
    (loop N_MIN N_MAX X num (.word "?" :: .int v :: rest)).verdict.result.kind = .Rejected ∧
      (loop N_MIN N_MAX X num (.word "!" :: .int v :: rest)).verdict.result.kind = .Rejected ∧
      (∀ Y : Int, loop N_MIN N_MAX Y num (.word "?" :: .int v :: rest)
          = loop N_MIN N_MAX X num (.word "?" :: .int v :: rest)) ∧
      (∀ Y : Int, loop N_MIN N_MAX Y num (.word "!" :: .int v :: rest)
          = loop N_MIN N_MAX X num (.word "!" :: .int v :: rest)) ∧
      (loop N_MIN N_MAX X num (.word "?" :: .int v :: rest)).written
        = (if B < num then [-1] else []) ∧
      (loop N_MIN N_MAX X num (.word "!" :: .int v :: rest)).written = [] := by
  obtain ⟨e, he, hek⟩ := toIntInRange_outside hv
  have hq : ∀ Y : Int, loop N_MIN N_MAX Y num (.word "?" :: .int v :: rest)
      = if B < num then
          ⟨[.read (.word "?"), .write (-1)], ⟨._wa, "Too many questions"⟩⟩
        else ⟨[.read (.word "?"), .read (.int v)], e⟩ := fun Y =>
    loop_query_error N_MIN N_MAX Y num he rest
  have ha : ∀ Y : Int, loop N_MIN N_MAX Y num (.word "!" :: .int v :: rest)
      = ⟨[.read (.word "!"), .read (.int v)], e⟩ := fun Y =>
    loop_answer_error N_MIN N_MAX Y num he rest
  refine ⟨?_, ?_, ?_, ?_, ?_, ?_⟩
  · rw [hq X]
    by_cases h : B < num
    · simp [h, TResult.kind]
    · simp [h, hek]
  · rw [ha X]; exact hek
  · intro Y; rw [hq Y, hq X]
  · intro Y; rw [ha Y, ha X]
  · rw [hq X]
    by_cases h : B < num <;> simp [h, Outcome.written, writes]
  · rw [ha X]; rfl

theorem out_of_domain_rejected_witness :
    (loop 1 100 42 3 (.word "?" :: .int 101 :: [])).verdict.result.kind = .Rejected ∧
      (loop 1 100 42 3 (.word "!" :: .int 101 :: [])).verdict.result.kind = .Rejected ∧
      (∀ Y : Int, loop 1 100 Y 3 (.word "?" :: .int 101 :: [])
          = loop 1 100 42 3 (.word "?" :: .int 101 :: [])) ∧
      (∀ Y : Int, loop 1 100 Y 3 (.word "!" :: .int 101 :: [])
          = loop 1 100 42 3 (.word "!" :: .int 101 :: [])) ∧
      (loop 1 100 42 3 (.word "?" :: .int 101 :: [])).written
        = (if B < 3 then [-1] else []) ∧
      (loop 1 100 42 3 (.word "!" :: .int 101 :: [])).written = [] :=
  out_of_domain_rejected 1 100 42 3 101 (by decide) []

/-- C6, as stated, fails: a token that is neither `?` nor `!` where a
discriminator is expected ends the session with `_fail` (InternalFault), not
with a Rejected verdict. -/
theorem unknown_discriminator_not_rejected :
    (main 1 100 [.int 42] [.word "x", .int 5]).verdict = ⟨._fail, "Condition failed"⟩ ∧
      (main 1 100 [.int 42] [.word "x", .int 5]).verdict.result.kind ≠ .Rejected := by
  decide

/-- C6, amended: at every value of the message counter, a token other than
`?` and `!` read as the discriminator fails the `ensure` of the loop: the
session ends with `_fail` (InternalFault), nothing more is read and nothing is
written. -/
theorem unknown_discriminator_fails (N_MIN N_MAX X num : Int) (t : Token)
    (hq : t ≠ .word "?") (ha : t ≠ .word "!") (rest : List Token) :
    loop N_MIN N_MAX X num (t :: rest) = ⟨[.read t], ⟨._fail, "Condition failed"⟩⟩ ∧
      (loop N_MIN N_MAX X num (t :: rest)).verdict.result.kind = .InternalFault ∧
      (loop N_MIN N_MAX X num (t :: rest)).written = [] := by
  rw [loop_unknown N_MIN N_MAX X num hq ha rest]
  exact ⟨rfl, rfl, rfl⟩

theorem unknown_discriminator_fails_witness :
    loop 1 100 42 1 (.word "query" :: [.int 5])
        = ⟨[.read (.word "query")], ⟨._fail, "Condition failed"⟩⟩ ∧
      (loop 1 100 42 1 (.word "query" :: [.int 5])).verdict.result.kind = .InternalFault ∧
      (loop 1 100 42 1 (.word "query" :: [.int 5])).written = [] :=
  unknown_discriminator_fails 1 100 42 1 (.word "query") (by decide) (by decide) [.int 5]

/-- C7, as stated, fails: with domain `[1, 100]` the target 1000 is loaded, a
query is answered and the session ends on the contestant's answer with `_wa`;
no `_fail` is raised for the target being outside the domain. -/
theorem target_outside_domain_loads :
    ¬ inDomain 1 100 1000 ∧
      main 1 100 [.int 1000] [.word "?", .int 50, .word "!", .int 50]
        = ⟨[.read (.word "?"), .read (.int 50), .write 0,
            .read (.word "!"), .read (.int 50), .write (-1)],
            ⟨._wa, "Guessed the wrong number"⟩⟩ ∧
      (main 1 100 [.int 1000] [.word "?", .int 50, .word "!", .int 50]).verdict.result.kind
        ≠ .InternalFault := by
  decide

/-- C7, amended: the target is read with no range check.  Every target that
fits a 32-bit `int`, inside the domain or not, is loaded and the run is the
message loop started at `num = 1` on the contestant stream.  Loading fails
only when the instance file does not start with such an integer; it then
fails with `_fail` (InternalFault, which is not the Rejected kind) before
anything is read from or written to the contestant. -/
theorem target_not_range_checked (N_MIN N_MAX : Int) (inf ouf : List Token) :
    (∀ (X : Int) (more : List Token), isInt32 X → inf = .int X :: more →
        main N_MIN N_MAX inf ouf = loop N_MIN N_MAX X 1 ouf) ∧
      ((∀ (X : Int) (more : List Token), isInt32 X → inf ≠ .int X :: more) →
        (main N_MIN N_MAX inf ouf).trace = [] ∧
          (main N_MIN N_MAX inf ouf).verdict.result = ._fail ∧
          (main N_MIN N_MAX inf ouf).verdict.result.kind = .InternalFault ∧
          (main N_MIN N_MAX inf ouf).verdict.result.kind ≠ .Rejected) := by
  constructor
  · intro X more hX hinf
    rw [hinf, main_eq_loop N_MIN N_MAX hX]
  · intro hno
    have herr : ∃ e, readTarget inf = .error e := by
      cases inf with
      | nil => exact ⟨_, rfl⟩
      | cons t ts =>
        cases t with
        | word w => exact ⟨_, rfl⟩
        | int v =>
          by_cases h : isInt32 v
          · exact absurd rfl (hno v ts h)
          · exact ⟨⟨._fail, "Expected int32"⟩, by simp [readTarget, h]⟩
    obtain ⟨e, he⟩ := herr
    have hf : e.result = ._fail := readTarget_error_fail he
    rw [main_load_failure N_MIN N_MAX he ouf]
    simp [hf, TResult.kind]

theorem target_not_range_checked_witness :
    main 1 100 [.int 1000] [.word "?", .int 50] = loop 1 100 1000 1 [.word "?", .int 50] ∧
      ((main 1 100 [.word "n/a"] [.word "?", .int 50]).trace = [] ∧
        (main 1 100 [.word "n/a"] [.word "?", .int 50]).verdict.result = ._fail ∧
        (main 1 100 [.word "n/a"] [.word "?", .int 50]).verdict.result.kind = .InternalFault ∧
        (main 1 100 [.word "n/a"] [.word "?", .int 50]).verdict.result.kind ≠ .Rejected) :=
  ⟨(target_not_range_checked 1 100 [.int 1000] [.word "?", .int 50]).1 1000 []
      (by decide) rfl,
    (target_not_range_checked 1 100 [.word "n/a"] [.word "?", .int 50]).2
      (fun _ _ _ h => by cases h)⟩

/-- C8: `k ≤ B` in-domain queries followed by `Answer(X)`, for a target `X` of
the domain, end the session with `_ok` (Accepted) and the diagnostic
"Guessed the number in k questions": the count reported is `num - 1 = k`.
After the two queries 500 and 750 with target 512 the diagnostic is
"Guessed the number in 2 questions". -/
theorem solved_reports_query_count (N_MIN N_MAX X : Int) (hmin : isInt32 N_MIN)
    (hmax : isInt32 N_MAX) (hX : inDomain N_MIN N_MAX X) (qs : List Int)
    (hqs : ∀ q ∈ qs, inDomain N_MIN N_MAX q) (hk : (qs.length : Int) ≤ B)
    (rest : List Token) :
    (main N_MIN N_MAX [.int X] (encode (qs.map .Query ++ [.Answer X]) ++ rest)).verdict
        = ⟨._ok, "Guessed the number in " ++ toString qs.length ++ " questions"⟩ ∧
      (main N_MIN N_MAX [.int X]
          (encode (qs.map .Query ++ [.Answer X]) ++ rest)).verdict.result.kind = .Accepted ∧
      (main 1 1000 [.int 512]
          [.word "?", .int 500, .word "?", .int 750, .word "!", .int 512]).verdict
        = ⟨._ok, "Guessed the number in 2 questions"⟩ := by
  have h32 : isInt32 X := ⟨le_trans hmin.1 hX.1, le_trans hX.2 hmax.2⟩
  have hrun : (main N_MIN N_MAX [.int X]
      (encode (qs.map .Query ++ [.Answer X]) ++ rest)).verdict
        = ⟨._ok, "Guessed the number in " ++ toString qs.length ++ " questions"⟩ := by
    rw [main_eq_loop N_MIN N_MAX h32, encode_append, List.append_assoc,
      loop_queries X hmin hmax qs hqs 1 (by omega), verdict_after]
    simp only [encode, Message.tokens, List.cons_append, List.nil_append, List.append_nil]
    rw [loop_answer X (1 + qs.length) hmin hmax hX]
    have hc : (1 : Int) + (qs.length : Int) - 1 = Int.ofNat qs.length := by
      simp
    simp only [if_true, hc]
    rfl
  refine ⟨hrun, ?_, by decide⟩
  rw [hrun]
  rfl

theorem solved_reports_query_count_witness :
    (main 1 1000 [.int 512] (encode ([500, 750].map .Query ++ [.Answer 512]) ++ [])).verdict
        = ⟨._ok, "Guessed the number in " ++ toString [(500 : Int), 750].length
            ++ " questions"⟩ ∧
      (main 1 1000 [.int 512]
          (encode ([500, 750].map .Query ++ [.Answer 512]) ++ [])).verdict.result.kind
        = .Accepted ∧
      (main 1 1000 [.int 512]
          [.word "?", .int 500, .word "?", .int 750, .word "!", .int 512]).verdict
        = ⟨._ok, "Guessed the number in 2 questions"⟩ :=
  solved_reports_query_count 1 1000 512 (by decide) (by decide) (by decide) [500, 750]
    (by decide) (by decide) []

/-- C9: on a stream of in-domain messages the events of the run are, message
by message and in order, the reads of the message followed by exactly one
write, for the messages the checker gets to (those up to and including the
first answer or over-budget query, a prefix of the stream).  So the responses
written are as many as the messages consumed, and the i-th response is the
response to the i-th message. -/
theorem one_response_per_message (N_MIN N_MAX X : Int) (hmin : isInt32 N_MIN)
    (hmax : isInt32 N_MAX) (hX : isInt32 X) (ms : List Message)
    (hms : ∀ m ∈ ms, inDomain N_MIN N_MAX m.value) :
    (main N_MIN N_MAX [.int X] (encode ms)).trace = exchanges X 1 (consumedMessages 1 ms) ∧
      (main N_MIN N_MAX [.int X] (encode ms)).written
        = responses X 1 (consumedMessages 1 ms) ∧
      (main N_MIN N_MAX [.int X] (encode ms)).written.length
        = (consumedMessages 1 ms).length ∧
      consumedMessages 1 ms <+: ms := by
  have htrace : (main N_MIN N_MAX [.int X] (encode ms)).trace
      = exchanges X 1 (consumedMessages 1 ms) := by
    rw [main_eq_loop N_MIN N_MAX hX]
    exact loop_encode_trace X hmin hmax ms hms 1
  have hwritten : (main N_MIN N_MAX [.int X] (encode ms)).written
      = responses X 1 (consumedMessages 1 ms) := by
    rw [Outcome.written, htrace, writes_exchanges]
  refine ⟨htrace, hwritten, ?_, consumedMessages_initial 1 ms⟩
  rw [hwritten, length_responses]

theorem one_response_per_message_witness :
    (main 1 100 [.int 42] (encode [.Query 50, .Query 25, .Answer 40, .Query 42])).trace
        = exchanges 42 1 (consumedMessages 1 [.Query 50, .Query 25, .Answer 40, .Query 42]) ∧
      (main 1 100 [.int 42] (encode [.Query 50, .Query 25, .Answer 40, .Query 42])).written
        = responses 42 1 (consumedMessages 1 [.Query 50, .Query 25, .Answer 40, .Query 42]) ∧
      (main 1 100 [.int 42]
          (encode [.Query 50, .Query 25, .Answer 40, .Query 42])).written.length
        = (consumedMessages 1 [.Query 50, .Query 25, .Answer 40, .Query 42]).length ∧
      consumedMessages 1 [.Query 50, .Query 25, .Answer 40, .Query 42]
        <+: [.Query 50, .Query 25, .Answer 40, .Query 42] :=
  one_response_per_message 1 100 42 (by decide) (by decide) (by decide)
    [.Query 50, .Query 25, .Answer 40, .Query 42] (by decide)

/-- C10, as stated, fails: the query 50 sent eight times with target 42 is
answered `1` seven times and `-1` the eighth time. -/
theorem repeated_query_over_budget :
    (main 1 100 [.int 42] (encode (List.replicate 8 (.Query 50)))).written
        = [1, 1, 1, 1, 1, 1, 1, -1] ∧
      (main 1 100 [.int 42] (encode (List.replicate 8 (.Query 50)))).written[0]?
        ≠ (main 1 100 [.int 42] (encode (List.replicate 8 (.Query 50)))).written[7]? := by
  decide

/-- C10, amended: in a session of at most `B` in-domain queries, every query
`v` is answered `1` if the target is below `v` and `0` otherwise, so two
occurrences of the same value receive the same response wherever they stand
among these queries. -/
theorem repeated_query_same_response (N_MIN N_MAX X : Int) (hmin : isInt32 N_MIN)
    (hmax : isInt32 N_MAX) (hX : isInt32 X) (qs : List Int)
    (hqs : ∀ q ∈ qs, inDomain N_MIN N_MAX q) (hk : (qs.length : Int) ≤ B) :
    (main N_MIN N_MAX [.int X] (encode (qs.map .Query))).written
        = qs.map (fun q => if X < q then 1 else 0) ∧
      ∀ i j : Nat, qs[i]? = qs[j]? →
        (main N_MIN N_MAX [.int X] (encode (qs.map .Query))).written[i]?
          = (main N_MIN N_MAX [.int X] (encode (qs.map .Query))).written[j]? := by
  have hw : (main N_MIN N_MAX [.int X] (encode (qs.map .Query))).written
      = qs.map (fun q => if X < q then 1 else 0) := by
    have h := loop_queries X hmin hmax qs hqs 1 (by omega) []
    rw [List.append_nil] at h
    rw [main_eq_loop N_MIN N_MAX hX, h, written_after, writes_queryEvents, loop_nil]
    simp [Outcome.written, writes]
    intro a _
    rfl
  refine ⟨hw, ?_⟩
  intro i j hij
  rw [hw, List.getElem?_map, List.getElem?_map, hij]

theorem repeated_query_same_response_witness :
    (main 1 100 [.int 42] (encode ([50, 30, 50, 42, 50].map .Query))).written
        = [50, 30, 50, 42, 50].map (fun q => if (42 : Int) < q then 1 else 0) ∧
      ∀ i j : Nat, [(50 : Int), 30, 50, 42, 50][i]? = [(50 : Int), 30, 50, 42, 50][j]? →
        (main 1 100 [.int 42] (encode ([50, 30, 50, 42, 50].map .Query))).written[i]?
          = (main 1 100 [.int 42] (encode ([50, 30, 50, 42, 50].map .Query))).written[j]? :=
  repeated_query_same_response 1 100 42 (by decide) (by decide) (by decide)
    [50, 30, 50, 42, 50] (by decide) (by decide)

/-- C11, as stated, fails: when the contestant stream ends after two in-domain
queries the reader of the discriminator quits with `_pe`, a contestant-blamed
verdict (Rejected), not with `_fail`. -/
theorem eof_while_active_not_fault :
    (main 1 100 [.int 42] (encode [.Query 50, .Query 25])).verdict
        = ⟨._pe, "Unexpected end of file"⟩ ∧
      (main 1 100 [.int 42] (encode [.Query 50, .Query 25])).verdict.result.kind = .Rejected ∧
      (main 1 100 [.int 42] (encode [.Query 50, .Query 25])).verdict.result.kind
        ≠ .InternalFault := by
  decide

/-- C11, amended: on a stream of at most `B` in-domain queries and nothing
else, the checker answers every query and then, finding the end of input where
the next discriminator is expected, quits with `_pe`, "Unexpected end of
file": a Rejected verdict, neither InternalFault nor Accepted. -/
theorem eof_while_active_rejected (N_MIN N_MAX X : Int) (hmin : isInt32 N_MIN)
    (hmax : isInt32 N_MAX) (hX : isInt32 X) (qs : List Int)
    (hqs : ∀ q ∈ qs, inDomain N_MIN N_MAX q) (hk : (qs.length : Int) ≤ B) :
    main N_MIN N_MAX [.int X] (encode (qs.map .Query))
        = ⟨queryEvents X qs, ⟨._pe, "Unexpected end of file"⟩⟩ ∧
      (main N_MIN N_MAX [.int X] (encode (qs.map .Query))).verdict.result.kind = .Rejected := by
  have h := loop_queries X hmin hmax qs hqs 1 (by omega) []
  rw [List.append_nil] at h
  have hrun : main N_MIN N_MAX [.int X] (encode (qs.map .Query))
      = ⟨queryEvents X qs, ⟨._pe, "Unexpected end of file"⟩⟩ := by
    rw [main_eq_loop N_MIN N_MAX hX, h, loop_nil]
    simp [Outcome.after, unexpectedEof]
  refine ⟨hrun, ?_⟩
  rw [hrun]
  rfl

theorem eof_while_active_rejected_witness :
    main 1 100 [.int 42] (encode ([50, 25, 37].map .Query))
        = ⟨queryEvents 42 [50, 25, 37], ⟨._pe, "Unexpected end of file"⟩⟩ ∧
      (main 1 100 [.int 42] (encode ([50, 25, 37].map .Query))).verdict.result.kind
        = .Rejected :=
  eof_while_active_rejected 1 100 42 (by decide) (by decide) (by decide) [50, 25, 37]
    (by decide) (by decide)

/-- C12: on an `Answer(v)` with `v` in the domain the checker reads the two
tokens, writes exactly one integer and quits: `1` when `v` is the target and
`-1`, which is not `1`, when it is not.  After `k ≤ B` in-domain queries this
acknowledgement is the last integer written. -/
theorem answer_acknowledged (N_MIN N_MAX X : Int) (hmin : isInt32 N_MIN)
    (hmax : isInt32 N_MAX) (hX : isInt32 X) (qs : List Int)
    (hqs : ∀ q ∈ qs, inDomain N_MIN N_MAX q) (hk : (qs.length : Int) ≤ B)
    (v : Int) (hv : inDomain N_MIN N_MAX v) (rest : List Token) :
    (∀ num : Int,
        (loop N_MIN N_MAX X num (.word "!" :: .int v :: rest)).trace
          = [.read (.word "!"), .read (.int v), .write (if v = X then 1 else -1)]) ∧
      (∀ num : Int,
        (loop N_MIN N_MAX X num (.word "!" :: .int v :: rest)).written
          = [if v = X then 1 else -1]) ∧
      (main N_MIN N_MAX [.int X] (encode (qs.map .Query ++ [.Answer v]) ++ rest)).written
        = qs.map (fun q => if X < q then 1 else 0) ++ [if v = X then 1 else -1] ∧
      (-1 : Int) ≠ 1 := by
  have htrace : ∀ num : Int,
      (loop N_MIN N_MAX X num (.word "!" :: .int v :: rest)).trace
        = [.read (.word "!"), .read (.int v), .write (if v = X then 1 else -1)] := by
    intro num
    rw [loop_answer X num hmin hmax hv]
    by_cases h : X = v
    · simp [h]
    · have h2 : ¬ v = X := fun e => h e.symm
      simp [h, h2]
  have hwritten : ∀ num : Int,
      (loop N_MIN N_MAX X num (.word "!" :: .int v :: rest)).written
        = [if v = X then 1 else -1] := by
    intro num
    rw [Outcome.written, htrace num]
    rfl
  refine ⟨htrace, hwritten, ?_, by decide⟩
  rw [main_eq_loop N_MIN N_MAX hX, encode_append, List.append_assoc,
    loop_queries X hmin hmax qs hqs 1 (by omega), written_after, writes_queryEvents]
  have hw := hwritten (1 + qs.length)
  simp only [encode, Message.tokens, List.cons_append, List.nil_append, List.append_nil]
  rw [hw]
  rfl

theorem answer_acknowledged_witness :
    (∀ num : Int,
        (loop 1 100 42 num (.word "!" :: .int 41 :: [])).trace
          = [.read (.word "!"), .read (.int 41), .write (if (41 : Int) = 42 then 1 else -1)]) ∧
      (∀ num : Int,
        (loop 1 100 42 num (.word "!" :: .int 41 :: [])).written
          = [if (41 : Int) = 42 then 1 else -1]) ∧
      (main 1 100 [.int 42] (encode ([50, 25].map .Query ++ [.Answer 41]) ++ [])).written
        = [50, 25].map (fun q => if (42 : Int) < q then 1 else 0)
            ++ [if (41 : Int) = 42 then 1 else -1] ∧
      (-1 : Int) ≠ 1 :=
  answer_acknowledged 1 100 42 (by decide) (by decide) (by decide) [50, 25] (by decide)
    (by decide) 41 (by decide) []

/-- C13: `main` enters the loop with `num = 1`, that is with no message seen.
Every iteration that runs to its end advances the counter by exactly one (the
other iterations end the session), so after `k ≤ B` in-domain queries the
loop is at its head with `num = k + 1`, the value the budget check of the
next message uses. -/
theorem counter_counts_messages (N_MIN N_MAX X : Int) (hmin : isInt32 N_MIN)
    (hmax : isInt32 N_MAX) (hX : isInt32 X) (qs : List Int)
    (hqs : ∀ q ∈ qs, inDomain N_MIN N_MAX q) (hk : (qs.length : Int) ≤ B)
    (rest : List Token) :
    (∀ ouf : List Token,
        main N_MIN N_MAX [.int X] ouf
            = loop N_MIN N_MAX X (initial ouf).num (initial ouf).ouf ∧
          (initial ouf).num = 1 ∧ messages_seen (initial ouf) = 0) ∧
      (∀ (s s' : LoopState) (ev : List Event), body N_MIN N_MAX X s = .next ev s' →
        s'.num = s.num + 1 ∧ messages_seen s' = messages_seen s + 1) ∧
      iterate N_MIN N_MAX X qs.length (initial (encode (qs.map .Query) ++ rest))
        = some ⟨qs.length + 1, rest⟩ ∧
      main N_MIN N_MAX [.int X] (encode (qs.map .Query) ++ rest)
        = (loop N_MIN N_MAX X (qs.length + 1) rest).after (queryEvents X qs) := by
  refine ⟨?_, ?_, ?_, ?_⟩
  · intro ouf
    exact ⟨main_eq_loop N_MIN N_MAX hX [] ouf, rfl, rfl⟩
  · intro s s' ev hb
    have h := (body_next hb).2.1
    refine ⟨h, ?_⟩
    simp only [messages_seen, h]
    ring
  · have h := iterate_queries X hmin hmax qs hqs 1 (by omega) rest
    rw [add_comm (1 : Int) _] at h
    exact h
  · rw [main_eq_loop N_MIN N_MAX hX, loop_queries X hmin hmax qs hqs 1 (by omega),
      add_comm (1 : Int) _]

theorem counter_counts_messages_witness :
    (∀ ouf : List Token,
        main 1 100 [.int 42] ouf = loop 1 100 42 (initial ouf).num (initial ouf).ouf ∧
          (initial ouf).num = 1 ∧ messages_seen (initial ouf) = 0) ∧
      (∀ (s s' : LoopState) (ev : List Event), body 1 100 42 s = .next ev s' →
        s'.num = s.num + 1 ∧ messages_seen s' = messages_seen s + 1) ∧
      iterate 1 100 42 [(50 : Int), 25, 37].length
          (initial (encode ([50, 25, 37].map .Query) ++ [.word "!", .int 42]))
        = some ⟨[(50 : Int), 25, 37].length + 1, [.word "!", .int 42]⟩ ∧
      main 1 100 [.int 42] (encode ([50, 25, 37].map .Query) ++ [.word "!", .int 42])
        = (loop 1 100 42 ([(50 : Int), 25, 37].length + 1) [.word "!", .int 42]).after
            (queryEvents 42 [50, 25, 37]) :=
  counter_counts_messages 1 100 42 (by decide) (by decide) (by decide) [50, 25, 37]
    (by decide) (by decide) [.word "!", .int 42]

/-- C14: when the message met at counter value `B + 1` starts with `?`, the
checker writes the sentinel `-1` and quits with `_wa`, "Too many questions",
whatever follows the discriminator (an integer of the domain or not, a token
that is no integer, or nothing): the only token read of that message is the
discriminator.  The same holds at every counter value above `B`. -/
theorem budget_check_first (N_MIN N_MAX X : Int) (hmin : isInt32 N_MIN)
    (hmax : isInt32 N_MAX) (hX : isInt32 X) (qs : List Int)
    (hqs : ∀ q ∈ qs, inDomain N_MIN N_MAX q) (hlen : (qs.length : Int) = B)
    (rest : List Token) :
    main N_MIN N_MAX [.int X] (encode (qs.map .Query) ++ .word "?" :: rest)
        = ⟨queryEvents X qs ++ [.read (.word "?"), .write (-1)],
            ⟨._wa, "Too many questions"⟩⟩ ∧
      (main N_MIN N_MAX [.int X] (encode (qs.map .Query) ++ .word "?" :: rest)).verdict.result.kind
        = .Rejected ∧
      (∀ num : Int, B < num →
        loop N_MIN N_MAX X num (.word "?" :: rest)
          = ⟨[.read (.word "?"), .write (-1)], ⟨._wa, "Too many questions"⟩⟩) := by
  have hrun : main N_MIN N_MAX [.int X] (encode (qs.map .Query) ++ .word "?" :: rest)
      = ⟨queryEvents X qs ++ [.read (.word "?"), .write (-1)],
          ⟨._wa, "Too many questions"⟩⟩ := by
    rw [main_eq_loop N_MIN N_MAX hX, loop_queries X hmin hmax qs hqs 1 (by omega),
      loop_over_budget N_MIN N_MAX X (1 + qs.length) (by omega)]
    rfl
  refine ⟨hrun, ?_, fun num h => loop_over_budget N_MIN N_MAX X num h rest⟩
  rw [hrun]
  rfl

theorem budget_check_first_witness :
    main 1 100 [.int 42]
          (encode ([50, 25, 37, 43, 40, 41, 42].map .Query) ++ .word "?" :: [.word "seven"])
        = ⟨queryEvents 42 [50, 25, 37, 43, 40, 41, 42] ++ [.read (.word "?"), .write (-1)],
            ⟨._wa, "Too many questions"⟩⟩ ∧
      (main 1 100 [.int 42]
          (encode ([50, 25, 37, 43, 40, 41, 42].map .Query)
            ++ .word "?" :: [.word "seven"])).verdict.result.kind
        = .Rejected ∧
      (∀ num : Int, B < num →
        loop 1 100 42 num (.word "?" :: [.word "seven"])
          = ⟨[.read (.word "?"), .write (-1)], ⟨._wa, "Too many questions"⟩⟩) :=
  budget_check_first 1 100 42 (by decide) (by decide) (by decide)
    [50, 25, 37, 43, 40, 41, 42] (by decide) (by decide) [.word "seven"]

/-- C15: whatever the instance file and the contestant stream hold, the
verdict of the run never carries the text "Unreachable".  The loop has no
exit but the `quit`s of its body, and one of them is taken within `B + 1 = 8`
iterations; so at most 16 tokens of the stream are read, and the run on an
unending stream is the run on its first 16 tokens. -/
theorem never_unreachable (N_MIN N_MAX : Int) (inf : List Token) :
    (∀ ouf : List Token, (main N_MIN N_MAX inf ouf).verdict.message ≠ "Unreachable") ∧
      (∀ (X : Int) (ouf : List Token), iterate N_MIN N_MAX X 8 (initial ouf) = none) ∧
      (∀ ouf : List Token, main N_MIN N_MAX inf ouf = main N_MIN N_MAX inf (ouf.take 16)) ∧
      (∀ (stream : Nat → Token) (n : Nat),
        main N_MIN N_MAX inf ((List.range (16 + n)).map stream)
            = main N_MIN N_MAX inf ((List.range 16).map stream) ∧
          (main N_MIN N_MAX inf ((List.range 16).map stream)).verdict.message
            ≠ "Unreachable") := by
  refine ⟨main_message_ne_unreachable N_MIN N_MAX inf, ?_, main_take N_MIN N_MAX inf, ?_⟩
  · intro X ouf
    apply iterate_none N_MIN N_MAX X 7 (initial ouf)
    simp [initial, B]
  · intro stream n
    refine ⟨?_, main_message_ne_unreachable N_MIN N_MAX inf _⟩
    rw [main_take N_MIN N_MAX inf ((List.range (16 + n)).map stream)]
    congr 1
    rw [← List.map_take, List.take_range]
    simp

end InteractiveChecker

/-! # The generator, the slow solution and the batch checkers -/

namespace InteractiveGenerator

/-- C16: when `N_MIN ≤ N_MAX` are `int`s whose range width
`N_MAX + 1 - N_MIN` fits `int`, the number printed for any seed is
`gen() % w + N_MIN` exactly, and so lies in `[N_MIN, N_MAX]`; this holds for
negative `N_MIN` too, with the sum formed in the 32-bit or 64-bit unsigned type
of `gen()` and converted back to `int`. -/
theorem generated_in_range (bits : Nat) (hbits : bits = 32 ∨ bits = 64)
    (N_MIN N_MAX : Int) (hmin : InteractiveChecker.isInt32 N_MIN)
    (hmax : InteractiveChecker.isInt32 N_MAX) (hle : N_MIN ≤ N_MAX)
    (hw : N_MAX + 1 - N_MIN ≤ InteractiveChecker.INT_MAX) (gen : Int → Int) (seed : Int) :
    w N_MIN N_MAX = N_MAX + 1 - N_MIN ∧
      main bits N_MIN N_MAX gen seed = gen seed % (N_MAX + 1 - N_MIN) + N_MIN ∧
      N_MIN ≤ main bits N_MIN N_MAX gen seed ∧ main bits N_MIN N_MAX gen seed ≤ N_MAX := by
  obtain ⟨hmin1, hmin2⟩ := hmin
  obtain ⟨hmax1, hmax2⟩ := hmax
  simp only [InteractiveChecker.INT_MIN, InteractiveChecker.INT_MAX] at hmin1 hmin2 hmax1 hmax2 hw
  have hwidth : w N_MIN N_MAX = N_MAX + 1 - N_MIN := by
    simp only [w, toInt]
    norm_num
    omega
  have hpos : 0 < N_MAX + 1 - N_MIN := by omega
  have hr0 : 0 ≤ gen seed % (N_MAX + 1 - N_MIN) := Int.emod_nonneg _ (ne_of_gt hpos)
  have hr1 : gen seed % (N_MAX + 1 - N_MIN) < N_MAX + 1 - N_MIN := Int.emod_lt_of_pos _ hpos
  have hmain : main bits N_MIN N_MAX gen seed = gen seed % (N_MAX + 1 - N_MIN) + N_MIN := by
    simp only [main, n, hwidth]
    rcases hbits with rfl | rfl
    · have hu : toUnsigned 32 (N_MAX + 1 - N_MIN) = N_MAX + 1 - N_MIN := by
        simp only [toUnsigned]
        norm_num
        omega
      rw [hu]
      generalize gen seed % (N_MAX + 1 - N_MIN) = r at hr0 hr1
      simp only [toInt, toUnsigned]
      norm_num
      omega
    · have hu : toUnsigned 64 (N_MAX + 1 - N_MIN) = N_MAX + 1 - N_MIN := by
        simp only [toUnsigned]
        norm_num
        omega
      rw [hu]
      generalize gen seed % (N_MAX + 1 - N_MIN) = r at hr0 hr1
      simp only [toInt, toUnsigned]
      norm_num
      omega
  refine ⟨hwidth, hmain, ?_, ?_⟩
  · rw [hmain]; omega
  · rw [hmain]; omega

theorem generated_in_range_witness :
    w (-5) 5 = 5 + 1 - (-5) ∧
      main 64 (-5) 5 (fun seed => (seed * 1812433253 + 4294967295) % 4294967296) 20261101
        = (fun seed : Int => (seed * 1812433253 + 4294967295) % 4294967296) 20261101
            % (5 + 1 - (-5)) + (-5) ∧
      -5 ≤ main 64 (-5) 5 (fun seed => (seed * 1812433253 + 4294967295) % 4294967296) 20261101 ∧
      main 64 (-5) 5 (fun seed => (seed * 1812433253 + 4294967295) % 4294967296) 20261101
        ≤ 5 :=
  generated_in_range 64 (Or.inr rfl) (-5) 5 (by decide) (by decide) (by decide) (by decide)
    (fun seed => (seed * 1812433253 + 4294967295) % 4294967296) 20261101

end InteractiveGenerator

namespace SampleTle

theorem toLongLong_of_isInt64 {v : Int} (h : isInt64 v) : toLongLong v = v := by
  obtain ⟨h1, h2⟩ := h
  simp only [LLONG_MIN, LLONG_MAX] at h1 h2
  simp only [toLongLong]
  norm_num
  omega

/-- With more fuel than `x`, the recursion on `x ≥ 0` returns `x + y`. -/
theorem add_eq_sum (fuel : Nat) (x y : Int) (hx0 : 0 ≤ x) (hx : isInt64 x) (hy : isInt64 y)
    (hxy : isInt64 (x + y)) (hfuel : x.toNat < fuel) : add fuel x y = some (x + y) := by
  induction fuel generalizing x y with
  | zero => omega
  | succ fuel ih =>
    rw [add]
    by_cases h0 : x = 0
    · simp [h0]
    · obtain ⟨hx1, hx2⟩ := hx
      obtain ⟨hy1, hy2⟩ := hy
      obtain ⟨hs1, hs2⟩ := hxy
      have hx' : isInt64 (x - 1) := ⟨by simp only [LLONG_MIN] at *; omega, by omega⟩
      have hy' : isInt64 (y + 1) := ⟨by omega, by omega⟩
      rw [if_neg h0, toLongLong_of_isInt64 hx', toLongLong_of_isInt64 hy']
      have hsum : x - 1 + (y + 1) = x + y := by ring
      have h := ih (x - 1) (y + 1) (by omega) hx' hy' (by rw [hsum]; exact ⟨hs1, hs2⟩)
        (by omega)
      rw [h, hsum]

/-- C17: for `long long` values `x ≥ 0` and `y` whose sum fits `long long`,
the recursion of `add(x, y)` returns after `x` nested calls (each call on
`x ≠ 0` recurses on `x - 1`, which is smaller and not negative) and its value
is `x + y`.  So the slow solution prints `A + B` for every input the validator
accepts, as long as `2 * N_MAX` fits `long long`. -/
theorem add_returns_sum (x y : Int) (hx0 : 0 ≤ x) (hx : isInt64 x) (hy : isInt64 y)
    (hxy : isInt64 (x + y)) :
    (∀ fuel : Nat, x.toNat < fuel → add fuel x y = some (x + y)) ∧
      (x ≠ 0 → 0 ≤ toLongLong (x - 1) ∧ toLongLong (x - 1) < x) ∧
      (∀ N_MAX A B : Int, 2 * N_MAX ≤ LLONG_MAX → SampleVerifier.main N_MAX A B = true →
        main (A.toNat + 1) A B = some (A + B)) := by
  refine ⟨fun fuel hf => add_eq_sum fuel x y hx0 hx hy hxy hf, ?_, ?_⟩
  · intro h0
    have hx' : isInt64 (x - 1) := by
      obtain ⟨hx1, hx2⟩ := hx
      exact ⟨by simp only [LLONG_MIN] at *; omega, by omega⟩
    rw [toLongLong_of_isInt64 hx']
    omega
  · intro N_MAX A B hN hacc
    simp only [SampleVerifier.main, Bool.and_eq_true, decide_eq_true_eq] at hacc
    obtain ⟨⟨hA0, hA1⟩, hB0, hB1⟩ := hacc
    simp only [LLONG_MAX] at hN
    have hA : isInt64 A := ⟨by simp only [LLONG_MIN]; omega, by simp only [LLONG_MAX]; omega⟩
    have hB : isInt64 B := ⟨by simp only [LLONG_MIN]; omega, by simp only [LLONG_MAX]; omega⟩
    have hAB : isInt64 (A + B) :=
      ⟨by simp only [LLONG_MIN]; omega, by simp only [LLONG_MAX]; omega⟩
    exact add_eq_sum (A.toNat + 1) A B hA0 hA hB hAB (by omega)

theorem add_returns_sum_witness :
    (∀ fuel : Nat, (1000 : Int).toNat < fuel → add fuel 1000 2024 = some (1000 + 2024)) ∧
      ((1000 : Int) ≠ 0 → 0 ≤ toLongLong (1000 - 1) ∧ toLongLong (1000 - 1) < 1000) ∧
      (∀ N_MAX A B : Int, 2 * N_MAX ≤ LLONG_MAX → SampleVerifier.main N_MAX A B = true →
        main (A.toNat + 1) A B = some (A + B)) :=
  add_returns_sum 1000 2024 (by decide) (by decide) (by decide) (by decide)

end SampleTle

/-- C18: on every input `x y`, contestant output `c` and judge output `j` the
two batch checkers leave the same exit status and message: status `0` with
"AC" when `c = j`, status `1` otherwise; the status is `0` exactly when
`c = j`, and neither `x` nor `y` has any influence. -/
theorem batch_checkers_equivalent (x y c j : Int) :
    CheckerTestlibStyle.main x y c j = CheckerYukicoderStyle.main x y j c ∧
      (CheckerTestlibStyle.main x y c j).status = (if c = j then 0 else 1) ∧
      (CheckerYukicoderStyle.main x y j c).status = (if c = j then 0 else 1) ∧
      ((CheckerTestlibStyle.main x y c j).status = 0 ↔ c = j) ∧
      ((CheckerYukicoderStyle.main x y j c).status = 0 ↔ c = j) ∧
      (∀ x' y' : Int,
        CheckerTestlibStyle.main x' y' c j = CheckerTestlibStyle.main x y c j ∧
          CheckerYukicoderStyle.main x' y' j c = CheckerYukicoderStyle.main x y j c) := by
  refine ⟨rfl, ?_, ?_, ?_, ?_, fun _ _ => ⟨rfl, rfl⟩⟩
  · by_cases h : c = j <;> simp [CheckerTestlibStyle.main, h]
  · by_cases h : c = j <;> simp [CheckerYukicoderStyle.main, h]
  · by_cases h : c = j <;> simp [CheckerTestlibStyle.main, h]
  · by_cases h : c = j <;> simp [CheckerYukicoderStyle.main, h]
